import Mathlib

/-!
# `tool/util/log.go`: the process-wide logger

A shallow embedding of `src/tool/util/log.go` and of the part of Go's standard
library `fmt` (`doPrintf` and its helpers in `fmt/print.go`, as of Go 1.21) that
decides what `Log` and `LogFatal` put on their streams.

* Go strings are modelled as sequences of characters (`List Char` inside the
  formatter, `String` at the logger's interface).  `doPrintf` reads its format
  byte by byte and decodes only the verb as a rune; on valid UTF-8 text every
  byte it tests for (`%`, flags, digits, `[`, `]`, `.`, `*`) is a whole ASCII
  character, so reading characters gives the same result.
* An operand (`any`) is kept abstract: `Operand α` collects what `doPrintf`
  asks of an operand.  `Arg` with `goOperand` is a concrete instance (the nil
  interface and `bool` operands).
* The state records every `Write` call made.  A write may fail after the
  stream accepted only part of the buffer: it returns an error, or, for a
  broken pipe on standard output or standard error, the runtime kills the
  process by `SIGPIPE`.
* `GetRunPhase()` and `InPreprocess()` belong to other files of the package:
  what they return is part of the state, and every result holds for all values.
-/

namespace fmt

/-- The fields of `fmt.fmt` (fmt/format.go) that `doPrintf` sets for one verb:
`fmtFlags`, `wid` and `prec`.  The default value is the state after
`clearflags()`. -/
structure FmtFlags where
  widPresent : Bool := false
  precPresent : Bool := false
  minus : Bool := false
  plus : Bool := false
  sharp : Bool := false
  space : Bool := false
  zero : Bool := false
  plusV : Bool := false
  sharpV : Bool := false
  wid : Int := 0
  prec : Int := 0
  deriving DecidableEq, Repr

/-- What `doPrintf` needs from an operand of type `any`. -/
structure Operand (α : Type) where
  /-- Whether `arg == nil`. -/
  isNil : α → Bool
  /-- The value `intFromArg` extracts: the operand as an `int` when it is of
  integer kind and fits, `none` otherwise. -/
  asInt : α → Option Int
  /-- The text of `reflect.TypeOf(arg).String()`. -/
  typeName : α → List Char
  /-- The text `(*pp).printArg(arg, verb)` appends under the given flags. -/
  printArg : FmtFlags → α → Char → List Char

/-- The function `tooLarge`: reports whether the magnitude of the integer is too large to be
used as a formatting width or precision. -/
def tooLarge (x : Int) : Bool :=
  decide (x > 1000000) || decide (x < -1000000)

/-- Byte test `'0' <= c && c <= '9'`. -/
def isDigit (c : Char) : Bool :=
  decide ('0' ≤ c) && decide (c ≤ '9')

/-- The loop of `parsenum`: `num` and `isnum` are the loop variables, the list
is `s[newi:end]`.  On overflow the source returns `newi = end`, that is an
empty remainder. -/
def parsenumLoop : Int → Bool → List Char → Int × Bool × List Char
  | num, isnum, [] => (num, isnum, [])
  | num, isnum, c :: s =>
    if isDigit c then
      if tooLarge num then (0, false, [])
      else parsenumLoop (num * 10 + ((c.toNat : Int) - ('0'.toNat : Int))) true s
    else (num, isnum, c :: s)

/-- The function `parsenum(s, start, end)` on the slice `s[start:end]`: the number, whether
one was read, and the slice from `newi` on. -/
def parsenum (s : List Char) : Int × Bool × List Char :=
  match s with
  | [] => (0, false, [])
  | _ => parsenumLoop 0 false s

/-- The length `len(s)` of a Go string: its length in bytes. -/
def byteLen (s : List Char) : Nat :=
  (s.map Char.utf8Size).sum

/-- The function `parseArgNumber(format)`, called with the opening bracket at `format[0]`:
the index, the format after the `wid` consumed bytes, and `ok`. -/
def parseArgNumber (format : List Char) : Int × List Char × Bool :=
  if byteLen format < 3 then (0, format.drop 1, false)
  else
    match (format.drop 1).dropWhile (fun c => c != ']') with
    | [] => (0, format.drop 1, false)
    | _ :: after =>
      match parsenum ((format.drop 1).takeWhile (fun c => c != ']')) with
      | (width, ok, left) =>
        if !ok || !left.isEmpty then (0, after, false)
        else (width - 1, after, true)

/-- The printer state one directive works on: the text it appends to `p.buf`,
`p.fmt`, `p.reordered`, `p.goodArgNum`, and the locals `argNum`, `afterIndex`
and `format[i:]` of `doPrintf`. -/
structure Scan where
  out : List Char
  fmt : FmtFlags
  reordered : Bool
  goodArgNum : Bool
  argNum : Nat
  afterIndex : Bool
  rest : List Char
  deriving DecidableEq, Repr

/-- The call `argNum, i, afterIndex = p.argNumber(argNum, format, i, len(a))`:
`(*pp).argNumber` with its effect on `p.reordered` and `p.goodArgNum`. -/
def argNumber (numArgs : Nat) (s : Scan) : Scan :=
  match s.rest with
  | [] => { s with afterIndex := false }
  | c :: _ =>
    if c != '[' then { s with afterIndex := false }
    else
      match parseArgNumber s.rest with
      | (index, rest, ok) =>
        if ok && decide (0 ≤ index) && decide (index < (numArgs : Int)) then
          { s with reordered := true, argNum := index.toNat, rest := rest, afterIndex := true }
        else
          { s with reordered := true, goodArgNum := false, rest := rest, afterIndex := ok }

/-- The function `intFromArg(a, argNum)`: the integer, whether it is one, and the new
`argNum`. -/
def intFromArg {α : Type} (R : Operand α) (a : List α) (argNum : Nat) : Int × Bool × Nat :=
  match a[argNum]? with
  | none => (0, false, argNum)
  | some v =>
    match R.asInt v with
    | some n => if tooLarge n then (0, false, argNum + 1) else (n, true, argNum + 1)
    | none => (0, false, argNum + 1)

/-- The section "Do we have width?" of `doPrintf`. -/
def width {α : Type} (R : Operand α) (a : List α) (s : Scan) : Scan :=
  match s.rest with
  | '*' :: rest =>
    match intFromArg R a s.argNum with
    | (wid, widPresent, argNum) =>
      let out := if widPresent then s.out else s.out ++ "%!(BADWIDTH)".data
      let f := { s.fmt with wid := wid, widPresent := widPresent }
      let f := if wid < 0 then { f with wid := -wid, minus := true, zero := false } else f
      { s with out := out, fmt := f, argNum := argNum, rest := rest, afterIndex := false }
  | _ =>
    match parsenum s.rest with
    | (wid, widPresent, rest) =>
      { s with
        fmt := { s.fmt with wid := wid, widPresent := widPresent },
        rest := rest,
        goodArgNum := if s.afterIndex && widPresent then false else s.goodArgNum }

/-- The section "Do we have precision?" of `doPrintf` from the test for `*`
on, after the dot and the argument index have been read. -/
def precisionNum {α : Type} (R : Operand α) (a : List α) (s : Scan) : Scan :=
  match s.rest with
  | '*' :: rest =>
    match intFromArg R a s.argNum with
    | (prec, precPresent, argNum) =>
      let prec1 := if prec < 0 then 0 else prec
      let precPresent1 := if prec < 0 then false else precPresent
      { s with
        out := if precPresent1 then s.out else s.out ++ "%!(BADPREC)".data,
        fmt := { s.fmt with prec := prec1, precPresent := precPresent1 },
        argNum := argNum, rest := rest, afterIndex := false }
  | _ =>
    match parsenum s.rest with
    | (prec, precPresent, rest) =>
      { s with
        fmt := { s.fmt with prec := if precPresent then prec else 0, precPresent := true },
        rest := rest }

/-- The section "Do we have precision?" of `doPrintf`. -/
def precision {α : Type} (R : Operand α) (a : List α) (s : Scan) : Scan :=
  match s.rest with
  | '.' :: rest =>
    precisionNum R a (argNumber a.length
      { s with rest := rest, goodArgNum := if s.afterIndex then false else s.goodArgNum })
  | _ => s

/-- The flag changes `doPrintf` makes for the verbs `v` and `w`. -/
def vFlags (f : FmtFlags) : FmtFlags :=
  { f with sharpV := f.sharp, sharp := false, plusV := f.plus, plus := false }

/-- Result of the `simpleFormat` flag loop: either the fast path took a
lower-case verb `c`, or the loop was left at `format[i:] = rest`. -/
inductive FlagScan where
  | simple (f : FmtFlags) (c : Char) (rest : List Char)
  | complex (f : FmtFlags) (rest : List Char)
  deriving DecidableEq, Repr

/-- The format left by the `simpleFormat` loop. -/
def FlagScan.rest : FlagScan → List Char
  | .simple _ _ rest => rest
  | .complex _ rest => rest

/-- The `simpleFormat` loop of `doPrintf`. -/
def simpleFormat (numArgs argNum : Nat) : FmtFlags → List Char → FlagScan
  | f, [] => .complex f []
  | f, c :: s =>
    if c = '#' then simpleFormat numArgs argNum { f with sharp := true } s
    else if c = '0' then simpleFormat numArgs argNum { f with zero := !f.minus } s
    else if c = '+' then simpleFormat numArgs argNum { f with plus := true } s
    else if c = '-' then simpleFormat numArgs argNum { f with minus := true, zero := false } s
    else if c = ' ' then simpleFormat numArgs argNum { f with space := true } s
    else if decide ('a' ≤ c) && decide (c ≤ 'z') && decide (argNum < numArgs) then .simple f c s
    else .complex f (c :: s)

/-- What one pass of "Process one verb" leaves behind: the text appended, the
new `argNum` and `p.reordered`, the format still to read, and whether the loop
was left by `break` after `%!(NOVERB)`. -/
structure VerbResult where
  out : List Char
  argNum : Nat
  reordered : Bool
  rest : List Char
  noVerb : Bool
  deriving DecidableEq, Repr

/-- The final `switch` of the loop body, on the decoded `verb`. -/
def verbSwitch {α : Type} (R : Operand α) (a : List α) (s : Scan) (verb : Char)
    (rest : List Char) : VerbResult :=
  if verb = '%' then ⟨s.out ++ ['%'], s.argNum, s.reordered, rest, false⟩
  else if !s.goodArgNum then
    ⟨s.out ++ "%!".data ++ [verb] ++ "(BADINDEX)".data, s.argNum, s.reordered, rest, false⟩
  else
    match a[s.argNum]? with
    | none =>
      ⟨s.out ++ "%!".data ++ [verb] ++ "(MISSING)".data, s.argNum, s.reordered, rest, false⟩
    | some arg =>
      let f := if verb = 'w' ∨ verb = 'v' then vFlags s.fmt else s.fmt
      ⟨s.out ++ R.printArg f arg verb, s.argNum + 1, s.reordered, rest, false⟩

/-- The argument index that may stand right before the verb: read unless an
index was just read (`if !afterIndex`). -/
def verbIndex (numArgs : Nat) (s : Scan) : Scan :=
  if s.afterIndex then s else argNumber numArgs s

/-- The end of the loop body: `%!(NOVERB)` and `break` when the format is
used up, else the verb is decoded and the final `switch` runs. -/
def verb {α : Type} (R : Operand α) (a : List α) (s : Scan) : VerbResult :=
  match s.rest with
  | [] => ⟨s.out ++ "%!(NOVERB)".data, s.argNum, s.reordered, [], true⟩
  | verb :: rest => verbSwitch R a s verb rest

/-- One pass of "Process one verb": `format` is the text after the `%`. -/
def processVerb {α : Type} (R : Operand α) (a : List α) (argNum : Nat) (reordered : Bool)
    (format : List Char) : VerbResult :=
  match simpleFormat a.length argNum {} format with
  | .simple f c rest =>
    match a[argNum]? with
    | some arg =>
      ⟨R.printArg (if c = 'w' ∨ c = 'v' then vFlags f else f) arg c, argNum + 1, reordered,
        rest, false⟩
    | none => ⟨[], argNum, reordered, rest, false⟩
  | .complex f rest =>
    verb R a (verbIndex a.length (precision R a (width R a (argNumber a.length
      ⟨[], f, reordered, true, argNum, false, rest⟩))))

/-- The same state with the text `t` added to the end of the format. -/
def Scan.app (s : Scan) (t : List Char) : Scan :=
  { s with rest := s.rest ++ t }

/-- The same result with the text `t` added to the end of the format. -/
def FlagScan.app : FlagScan → List Char → FlagScan
  | .simple f c rest, t => .simple f c (rest ++ t)
  | .complex f rest, t => .complex f (rest ++ t)

/-- The same result with the text `t` added to the end of the format. -/
def VerbResult.app (r : VerbResult) (t : List Char) : VerbResult :=
  { r with rest := r.rest ++ t }

/-- The printer after the format loop: `p.buf`, `argNum`, `p.reordered`, and
whether the loop ended in `%!(NOVERB)`. -/
structure Printed where
  buf : List Char
  argNum : Nat
  reordered : Bool
  noVerb : Bool
  deriving DecidableEq, Repr

/-- The `formatLoop` of `doPrintf`.  Each pass copies the text up to the next
`%` and processes one verb; `fuel` bounds the number of passes. -/
def formatLoop {α : Type} (R : Operand α) (a : List α) :
    Nat → List Char → Nat → Bool → Printed
  | 0, _, argNum, reordered => ⟨[], argNum, reordered, false⟩
  | fuel + 1, format, argNum, reordered =>
    match format.dropWhile (fun c => c != '%') with
    | [] => ⟨format.takeWhile (fun c => c != '%'), argNum, reordered, false⟩
    | _ :: s =>
      let r := processVerb R a argNum reordered s
      if r.noVerb then
        ⟨format.takeWhile (fun c => c != '%') ++ r.out, r.argNum, r.reordered, true⟩
      else
        let p := formatLoop R a fuel r.rest r.argNum r.reordered
        ⟨format.takeWhile (fun c => c != '%') ++ r.out ++ p.buf, p.argNum, p.reordered,
          p.noVerb⟩

/-- The operand list of the `%!(EXTRA ...)` report. -/
def extraArgs {α : Type} (R : Operand α) : List α → List Char
  | [] => []
  | [arg] =>
    if R.isNil arg then "<nil>".data else R.typeName arg ++ ['='] ++ R.printArg {} arg 'v'
  | arg :: rest =>
    (if R.isNil arg then "<nil>".data else R.typeName arg ++ ['='] ++ R.printArg {} arg 'v')
      ++ ", ".data ++ extraArgs R rest

/-- The check for extra arguments after the format loop. -/
def extra {α : Type} (R : Operand α) (a : List α) (p : Printed) : List Char :=
  if !p.reordered && decide (p.argNum < a.length) then
    "%!(EXTRA ".data ++ extraArgs R (a.drop p.argNum) ++ [')']
  else []

/-- The run of the format loop that `doPrintf` makes on `format`. -/
def scan {α : Type} (R : Operand α) (format : List Char) (a : List α) : Printed :=
  formatLoop R a (format.length + 1) format 0 false

/-- The method `(*pp).doPrintf(format, a)`: the contents of `p.buf` afterwards. -/
def doPrintf {α : Type} (R : Operand α) (format : List Char) (a : List α) : List Char :=
  (scan R format a).buf ++ extra R a (scan R format a)

/-- The function `fmt.Sprintf(format, a...)`. -/
def Sprintf {α : Type} (R : Operand α) (format : String) (a : List α) : String :=
  ⟨doPrintf R format.data a⟩

/-- A concrete operand type: the nil interface value and values of Go type
`bool`. -/
inductive Arg where
  | nil
  | bool (b : Bool)
  deriving DecidableEq, Repr

/-- The method `(*fmt).writePadding(n)`: `n` pad bytes, zeros under the zero flag. -/
def writePadding (f : FmtFlags) (n : Int) : List Char :=
  if n ≤ 0 then [] else List.replicate n.toNat (if f.zero then '0' else ' ')

/-- The method `(*fmt).padString(s)`. -/
def padString (f : FmtFlags) (s : List Char) : List Char :=
  if !f.widPresent || f.wid == 0 then s
  else if !f.minus then writePadding f (f.wid - s.length) ++ s
  else s ++ writePadding f (f.wid - s.length)

/-- The method `(*fmt).truncateString(s)`. -/
def truncateString (f : FmtFlags) (s : List Char) : List Char :=
  if f.precPresent then s.take f.prec.toNat else s

/-- The method `(*fmt).fmtS(s)`. -/
def fmtS (f : FmtFlags) (s : List Char) : List Char :=
  padString f (truncateString f s)

/-- The text of `reflect.TypeOf(arg).String()` for a non-nil `Arg`. -/
def Arg.typeName : Arg → List Char
  | .nil => "<nil>".data
  | .bool _ => "bool".data

/-- The call `(*pp).printArg(arg, 'v')` for an `Arg`: `padString("<nil>")` for nil,
`fmtBoolean` for a bool. -/
def Arg.printV (f : FmtFlags) : Arg → List Char
  | .nil => padString f "<nil>".data
  | .bool b => padString f (if b then "true".data else "false".data)

/-- The method `(*pp).badVerb(verb)` with `p.arg = arg`. -/
def Arg.badVerb (f : FmtFlags) (arg : Arg) (verb : Char) : List Char :=
  match arg with
  | .nil => "%!".data ++ [verb] ++ "(<nil>)".data
  | .bool _ =>
    "%!".data ++ [verb] ++ ['('] ++ arg.typeName ++ ['='] ++ arg.printV f ++ [')']

/-- The method `(*pp).printArg(arg, verb)` for an `Arg`. -/
def Arg.printArg (f : FmtFlags) (arg : Arg) (verb : Char) : List Char :=
  match arg with
  | .nil => if verb = 'T' ∨ verb = 'v' then padString f "<nil>".data else arg.badVerb f verb
  | .bool _ =>
    if verb = 'T' then fmtS f arg.typeName
    else if verb = 'p' then arg.badVerb f verb
    else if verb = 't' ∨ verb = 'v' then arg.printV f
    else arg.badVerb f verb

/-- The operands `Arg` as `doPrintf` sees them. -/
def goOperand : Operand Arg where
  isNil := fun arg => decide (arg = Arg.nil)
  asInt := fun _ => none
  typeName := Arg.typeName
  printArg := Arg.printArg

end fmt

namespace os

/-- A non-nil `*os.File`: its descriptor and the name `Name()` returns. -/
structure File where
  fd : Nat
  name : String
  deriving DecidableEq, Repr

/-- The variable `os.Stdout = NewFile(uintptr(syscall.Stdout), "/dev/stdout")`. -/
def Stdout : File := ⟨1, "/dev/stdout"⟩

/-- The variable `os.Stderr = NewFile(uintptr(syscall.Stderr), "/dev/stderr")`. -/
def Stderr : File := ⟨2, "/dev/stderr"⟩

/-- The field `stdoutOrErr` of a file, which `newFile` sets to
`fdi == 1 || fdi == 2`. -/
def File.stdoutOrErr (f : File) : Bool :=
  f.fd == 1 || f.fd == 2

end os

namespace util

/-- Modelled from the spec: the run phase, "an external enumerated value (not
owned by this component) whose string form is prefixed to every normal log
line".  Its declaration is in another file of the package; a phase is known
here only through the text its `String()` method returns. -/
structure RunPhase where
  text : String
  deriving DecidableEq, Repr

/-- One call of `(*os.File).Write`: the descriptor written to, the buffer
handed over, and the number of characters the stream accepted. -/
structure WriteCall where
  fd : Nat
  buf : String
  n : Nat
  deriving DecidableEq, Repr

/-- A write that fails: the number of characters the stream accepts before
the error, and whether the error is `syscall.EPIPE` (a broken pipe). -/
structure Fault where
  n : Nat
  epipe : Bool
  deriving DecidableEq, Repr

/-- The state the logger runs in.
* `logWriter`, `logMutex`: the package variables of `log.go` (`none` is the nil
  pointer, `true` is a locked mutex).
* `runPhase`, `inPreprocess`: what the collaborators `GetRunPhase()` and
  `InPreprocess()`, defined elsewhere in the package, currently return.
* `fault k fd`: `none` when the `k`-th write of the run, made on `fd`,
  succeeds; `some ft` when it fails as `ft` says.
* `sigpipeHandled`: whether the runtime's `sigpipe()` returns instead of
  killing the process, that is, `SIGPIPE` is ignored or delivered to a
  `signal.Notify` channel (or the platform raises no such signal).
* `writes`: the write calls made so far, oldest first. -/
structure World where
  logWriter : Option os.File
  logMutex : Bool
  runPhase : RunPhase
  inPreprocess : Bool
  fault : Nat → Nat → Option Fault
  sigpipeHandled : Bool
  writes : List WriteCall

/-- How a call ends: it returns a value, the process exits with a status, the
goroutine panics, it waits for `logMutex` for ever, or the process is killed
by `SIGPIPE`. -/
inductive Outcome (α : Type) where
  | returned (val : α) (σ : World)
  | exited (code : Int) (σ : World)
  | panicked (σ : World)
  | blocked (σ : World)
  | killed (σ : World)

/-- The state a call ends in. -/
def Outcome.world {α : Type} : Outcome α → World
  | .returned _ σ => σ
  | .exited _ σ => σ
  | .panicked σ => σ
  | .blocked σ => σ
  | .killed σ => σ

/-- The exit status, when the call ends in `os.Exit`. -/
def Outcome.exitCode {α : Type} : Outcome α → Option Int
  | .exited code _ => some code
  | _ => none

/-- Whether the call ends with the process killed by `SIGPIPE`. -/
def Outcome.isKilled {α : Type} : Outcome α → Bool
  | .killed _ => true
  | _ => false

/-- Whether the call returns to its caller. -/
def Outcome.isReturned {α : Type} : Outcome α → Bool
  | .returned _ _ => true
  | _ => false

/-- The same ending in a state changed by `g`. -/
def Outcome.mapWorld {α : Type} (g : World → World) : Outcome α → Outcome α
  | .returned v σ => .returned v (g σ)
  | .exited code σ => .exited code (g σ)
  | .panicked σ => .panicked (g σ)
  | .blocked σ => .blocked (g σ)
  | .killed σ => .killed (g σ)

/-- Sequencing: the statements `k` that follow a call run when it returns. -/
def Outcome.bind {α β : Type} (o : Outcome α) (k : α → World → Outcome β) : Outcome β :=
  match o with
  | .returned v σ => k v σ
  | .exited code σ => .exited code σ
  | .panicked σ => .panicked σ
  | .blocked σ => .blocked σ
  | .killed σ => .killed σ

/-- The var declarations of `log.go`: `logWriter = os.Stdout`, and the zero
value of `sync.Mutex`, an unlocked mutex.  The rest is the environment the
process starts in. -/
def initial (runPhase : RunPhase) (inPreprocess : Bool) (fault : Nat → Nat → Option Fault)
    (sigpipeHandled : Bool) : World :=
  { logWriter := some os.Stdout, logMutex := false, runPhase := runPhase,
    inPreprocess := inPreprocess, fault := fault, sigpipeHandled := sigpipeHandled,
    writes := [] }

/-- Modelled from the spec: the collaborator `GetRunPhase()`, "obtained via a
collaborator lookup at the time of each call, not cached".  Its body is in
another file of the package. -/
def GetRunPhase (σ : World) : RunPhase := σ.runPhase

/-- Modelled from the spec: the "string-rendering capability (`String()`)" of a
run phase, declared in another file of the package. -/
def RunPhase.String (p : RunPhase) : String := p.text

/-- Modelled from the spec: the collaborator `InPreprocess()`, "an external
boolean-valued check consulted only inside `LogFatal`".  Its body is in another
file of the package. -/
def InPreprocess (σ : World) : Bool := σ.inPreprocess

/-- The number of characters a write of `b` gets accepted under a fault. -/
def accepted (fault : Option Fault) (b : String) : Nat :=
  match fault with
  | none => b.length
  | some ft => min ft.n b.length

/-- The state after one `Write` call handing `b` to the open file `file`:
the call is recorded with the number of characters the stream accepted. -/
def World.wrote (σ : World) (file : os.File) (b : String) : World :=
  { σ with
    writes := σ.writes ++ [⟨file.fd, b, accepted (σ.fault σ.writes.length file.fd) b⟩] }

/-- Whether the `k`-th write of the run, if made on a file with descriptor
`fd`, kills the process: `epipecheck` calls `sigpipe()` when the error is
`EPIPE` and the file is standard output or standard error, and `sigpipe()`
dies from the signal unless it is ignored or handled. -/
def World.pipeDeath (σ : World) (k : Nat) (file : os.File) : Bool :=
  match σ.fault k file.fd with
  | none => false
  | some ft => ft.epipe && file.stdoutOrErr && !σ.sigpipeHandled

/-- Whether the next write, if made on `file`, kills the process. -/
def World.sigpipe (σ : World) (file : os.File) : Bool :=
  σ.pipeDeath σ.writes.length file

/-- The method `(*os.File).Write(b)`: the ending, with `n` and whether
`err != nil` when it returns.  A nil receiver fails with `ErrInvalid` before
any write is attempted.  After the write `epipecheck` runs: a broken pipe on
standard output or standard error kills the process by `SIGPIPE`. -/
def Write (σ : World) (f : Option os.File) (b : String) : Outcome (Nat × Bool) :=
  match f with
  | none => .returned (0, true) σ
  | some file =>
    if σ.sigpipe file then .killed (σ.wrote file b)
    else
      .returned (accepted (σ.fault σ.writes.length file.fd) b,
        (σ.fault σ.writes.length file.fd).isSome) (σ.wrote file b)

/-- The function `fmt.Fprintf(w, format, a...)`: format into a buffer, then one
`Write`. -/
def Fprintf {α : Type} (R : fmt.Operand α) (σ : World) (w : Option os.File) (format : String)
    (a : List α) : Outcome (Nat × Bool) :=
  Write σ w (fmt.Sprintf R format a)

/-- The call `logMutex.Lock()`: it waits while the mutex is held. -/
def Lock (σ : World) : Outcome Unit :=
  if σ.logMutex then .blocked σ else .returned () { σ with logMutex := true }

/-- The call `logMutex.Unlock()`; unlocking an unlocked mutex is a fatal
runtime error (exit status 2). -/
def Unlock (σ : World) : Outcome Unit :=
  if σ.logMutex then .returned () { σ with logMutex := false } else .exited 2 σ

/-- The function `os.Exit(code)`. -/
def Exit {α : Type} (σ : World) (code : Int) : Outcome α := .exited code σ

/-- Source `func SetLogger(w *os.File)`, lines 29-31. -/
def SetLogger (σ : World) (w : Option os.File) : Outcome Unit :=
  .returned () { σ with logWriter := w }

/-- Source `func GetLoggerPath() string`, lines 33-35; `Name()` on a nil
`*os.File` panics. -/
def GetLoggerPath (σ : World) : Outcome String :=
  match σ.logWriter with
  | none => .panicked σ
  | some f => .returned f.name σ

/-- Source `func Log(format string, args ...interface{})`, lines 37-42.  The
`Unlock` is deferred: it runs when the function returns and when it panics,
not when the process dies in the write. -/
def Log {α : Type} (R : fmt.Operand α) (σ : World) (format : String) (args : List α) :
    Outcome Unit :=
  let template := "[" ++ (GetRunPhase σ).String ++ "] " ++ format ++ "\n"
  (Lock σ).bind fun _ σ1 =>
    match Fprintf R σ1 σ1.logWriter template args with
    | .panicked σ2 => (Unlock σ2).bind fun _ σ3 => .panicked σ3
    | o => o.bind fun _ σ2 => Unlock σ2

/-- Source `func LogFatal(format string, args ...interface{})`, lines 44-50. -/
def LogFatal {α : Type} (R : fmt.Operand α) (σ : World) (format : String) (args : List α) :
    Outcome Unit :=
  (Fprintf R σ σ.logWriter format args).bind fun _ σ1 =>
    if InPreprocess σ1 then
      (Fprintf R σ1 (some os.Stderr) format args).bind fun _ σ2 => Exit σ2 1
    else Exit σ1 1

/-- The characters stream `fd` took in from a list of write calls. -/
def received (fd : Nat) : List WriteCall → String
  | [] => ""
  | c :: cs => (if c.fd = fd then ⟨c.buf.data.take c.n⟩ else "") ++ received fd cs

/-- A caller making the given `Log` calls one after the other. -/
def LogAll {α : Type} (R : fmt.Operand α) (σ : World) : List (String × List α) → Outcome Unit
  | [] => .returned () σ
  | c :: cs => (Log R σ c.1 c.2).bind fun _ σ1 => LogAll R σ1 cs

/-- The line the specification describes for `Log`: the caller's format
rendered on its own, with the phase prefix and the newline put around it. -/
def specLine {α : Type} (R : fmt.Operand α) (P : RunPhase) (f : String) (a : List α) : String :=
  "[" ++ P.String ++ "] " ++ fmt.Sprintf R f a ++ "\n"

/-- The format `Log` hands to `Fprintf`. -/
def template (P : RunPhase) (f : String) : String :=
  "[" ++ P.String ++ "] " ++ f ++ "\n"

/-! ### Goroutines calling `Log` concurrently

Each goroutine runs the body of `Log` on the shared state, with the same
`Lock`, `Write` and `Unlock` as a lone call; the scheduler picks which
goroutine takes the next step.  The write of `Fprintf` is taken at its finest
grain, one character a step, so that two writers not kept apart by `logMutex`
could interleave. -/

/-- Where a goroutine stands in the body of `Log`. -/
inductive Pc where
  /-- Before line 38. -/
  | start
  /-- The template is built; at `logMutex.Lock()`. -/
  | locking (template : String)
  /-- Holding the lock inside `fmt.Fprintf`: the part of the buffer not yet
  handed to the stream. -/
  | writing (rest : List Char)
  /-- The write is over; at the deferred `logMutex.Unlock()`. -/
  | unlocking
  /-- Returned. -/
  | done
  deriving DecidableEq, Repr

/-- The shared state and the goroutines' positions.  `order` is a history
variable: the goroutines in the order in which they acquired `logMutex`. -/
structure Config where
  world : World
  order : List Nat
  pc : Nat → Pc

/-- Goroutine `i` moves to position `p`. -/
def Config.goto (c : Config) (i : Nat) (p : Pc) : Config :=
  { c with pc := fun j => if j = i then p else c.pc j }

/-- All goroutines at the start of `Log`, in the shared state `σ`. -/
def Config.init (σ : World) : Config :=
  { world := σ, order := [], pc := fun _ => Pc.start }

/-- One step of goroutine `i`, which runs `Log(calls[i].1, calls[i].2...)`;
`none` when it cannot move: it waits for the mutex, it has returned, or the
process is dead.  A write that returns an error ends the `Fprintf`. -/
def step {α : Type} (R : fmt.Operand α) (calls : List (String × List α))
    (i : Nat) (c : Config) : Option Config :=
  match calls[i]? with
  | none => none
  | some call =>
    match c.pc i with
    | .start =>
      some (c.goto i (.locking ("[" ++ (GetRunPhase c.world).String ++ "] " ++ call.1 ++ "\n")))
    | .locking t =>
      match Lock c.world with
      | .returned _ σ1 =>
        some ({ c with world := σ1, order := c.order ++ [i] }.goto i
          (.writing (fmt.Sprintf R t call.2).data))
      | _ => none
    | .writing [] => some (c.goto i .unlocking)
    | .writing (ch :: rest) =>
      match Write c.world c.world.logWriter ⟨[ch]⟩ with
      | .returned r σ1 =>
        some ({ c with world := σ1 }.goto i (if r.2 then .unlocking else .writing rest))
      | _ => none
    | .unlocking =>
      match Unlock c.world with
      | .returned _ σ1 => some ({ c with world := σ1 }.goto i .done)
      | _ => none
    | .done => none

/-- Run a schedule: the goroutines named take one step each, in turn. -/
def run {α : Type} (R : fmt.Operand α) (calls : List (String × List α)) :
    List Nat → Config → Option Config
  | [], c => some c
  | i :: sch, c =>
    match step R calls i c with
    | none => none
    | some c1 => run R calls sch c1

/-- The output of call `i`: the characters a lone `Log(calls[i].1,
calls[i].2...)` puts on the destination in phase `P`. -/
def lineOf {α : Type} (R : fmt.Operand α) (P : RunPhase) (calls : List (String × List α))
    (i : Nat) : List Char :=
  match calls[i]? with
  | none => []
  | some call => (fmt.Sprintf R (template P call.1) call.2).data

/-- The outputs of the calls listed, one after the other. -/
def linesOf {α : Type} (R : fmt.Operand α) (P : RunPhase) (calls : List (String × List α)) :
    List Nat → List Char
  | [] => []
  | i :: is => lineOf R P calls i ++ linesOf R P calls is

/-- The number of steps goroutine `i` still has to take from position `p`. -/
def work {α : Type} (R : fmt.Operand α) (P : RunPhase) (calls : List (String × List α))
    (i : Nat) : Pc → Nat
  | .start => (lineOf R P calls i).length + 4
  | .locking t =>
    (match calls[i]? with
      | none => 0
      | some call => (fmt.Sprintf R t call.2).data.length) + 3
  | .writing rest => rest.length + 2
  | .unlocking => 1
  | .done => 0

/-- The number of steps all goroutines together still have to take. -/
def totalWork {α : Type} (R : fmt.Operand α) (P : RunPhase) (calls : List (String × List α))
    (c : Config) : Nat :=
  ((List.range calls.length).map (fun i => work R P calls i (c.pc i))).sum

/-- What holds of every configuration the goroutines reach from the shared
state `σ0`, whose destination is the open file `d` and whose writes succeed.
* The shared state is `σ0` but for the mutex and the writes made.
* The goroutines that have taken the lock are listed once each in `order`;
  those not listed are before the lock, with the template of `Log` built.
* With the mutex free, every listed goroutine has returned and the
  destination has received their outputs, whole, in the order of the list.
* With the mutex held, the holder is the last listed: the destination has
  received the outputs of the others and the part of the holder's output
  already written. -/
structure Inv {α : Type} (R : fmt.Operand α) (σ0 : World) (d : os.File)
    (calls : List (String × List α)) (c : Config) : Prop where
  writer : c.world.logWriter = some d
  phase : c.world.runPhase = σ0.runPhase
  sound : ∀ k fd, c.world.fault k fd = none
  nodup : c.order.Nodup
  bound : ∀ i ∈ c.order, i < calls.length
  before : ∀ i, i ∉ c.order →
    c.pc i = .start ∨
      ∃ call, calls[i]? = some call ∧ c.pc i = .locking (template σ0.runPhase call.1)
  after : ∀ i ∈ c.order, (∃ rest, c.pc i = .writing rest) ∨ c.pc i = .unlocking ∨ c.pc i = .done
  free : c.world.logMutex = false →
    (∀ i ∈ c.order, c.pc i = .done) ∧
      (received d.fd c.world.writes).data
        = (received d.fd σ0.writes).data ++ linesOf R σ0.runPhase calls c.order
  held : c.world.logMutex = true →
    ∃ o h, c.order = o ++ [h] ∧ (∀ i ∈ o, c.pc i = .done) ∧
      ((∃ w rest, c.pc h = .writing rest ∧ w ++ rest = lineOf R σ0.runPhase calls h ∧
          (received d.fd c.world.writes).data
            = (received d.fd σ0.writes).data ++ linesOf R σ0.runPhase calls o ++ w) ∨
        (c.pc h = .unlocking ∧
          (received d.fd c.world.writes).data
            = (received d.fd σ0.writes).data ++ linesOf R σ0.runPhase calls o
              ++ lineOf R σ0.runPhase calls h))

end util

namespace fmt

/-! ### The formatter reads its format left to right -/

theorem parsenumLoop_suffix (num : Int) (isnum : Bool) (s : List Char) :
    (parsenumLoop num isnum s).2.2 <:+ s := by
  induction s generalizing num isnum with
  | nil => simp [parsenumLoop]
  | cons c s ih =>
    unfold parsenumLoop
    split
    · split
      · exact List.nil_suffix
      · exact (ih _ _).trans (List.suffix_cons c s)
    · exact List.suffix_refl _

theorem parsenum_suffix (s : List Char) : (parsenum s).2.2 <:+ s := by
  unfold parsenum
  split
  · exact List.suffix_refl _
  · exact parsenumLoop_suffix 0 false _

theorem parseArgNumber_suffix (s : List Char) : (parseArgNumber s).2.1 <:+ s := by
  unfold parseArgNumber
  split
  · exact List.drop_suffix 1 s
  · split
    · exact List.drop_suffix 1 s
    · rename_i c after h
      have h1 : after <:+ s := by
        have h2 : c :: after <:+ List.drop 1 s := h ▸ List.dropWhile_suffix _
        exact ((List.suffix_cons c after).trans h2).trans (List.drop_suffix 1 s)
      split
      split <;> exact h1

theorem argNumber_suffix (numArgs : Nat) (s : Scan) : (argNumber numArgs s).rest <:+ s.rest := by
  unfold argNumber
  split
  · rename_i h; simp
  · split
    · exact List.suffix_refl _
    · rename_i c u h hc
      split
      rename_i index rest ok hp
      have h1 : rest <:+ s.rest := by
        have := parseArgNumber_suffix s.rest
        rw [hp] at this
        exact this
      split <;> exact h1

theorem width_suffix {α : Type} (R : Operand α) (a : List α) (s : Scan) :
    (width R a s).rest <:+ s.rest := by
  unfold width
  split
  · rename_i rest h
    split
    rw [h]
    exact List.suffix_cons _ _
  · split
    rename_i wid widPresent rest hp
    have := parsenum_suffix s.rest
    rw [hp] at this
    exact this

theorem precisionNum_suffix {α : Type} (R : Operand α) (a : List α) (s : Scan) :
    (precisionNum R a s).rest <:+ s.rest := by
  unfold precisionNum
  split
  · rename_i rest h
    split
    rw [h]
    exact List.suffix_cons _ _
  · split
    rename_i prec precPresent rest hp
    have := parsenum_suffix s.rest
    rw [hp] at this
    exact this

theorem precision_suffix {α : Type} (R : Operand α) (a : List α) (s : Scan) :
    (precision R a s).rest <:+ s.rest := by
  unfold precision
  split
  · rename_i rest h
    rw [h]
    exact ((precisionNum_suffix R a _).trans (argNumber_suffix a.length _)).trans
      (List.suffix_cons _ _)
  · exact List.suffix_refl _

theorem verbIndex_suffix (numArgs : Nat) (s : Scan) : (verbIndex numArgs s).rest <:+ s.rest := by
  unfold verbIndex
  split
  · exact List.suffix_refl _
  · exact argNumber_suffix numArgs s

theorem simpleFormat_suffix (numArgs argNum : Nat) (f : FmtFlags) (s : List Char) :
    (simpleFormat numArgs argNum f s).rest <:+ s := by
  induction s generalizing f with
  | nil => simp [simpleFormat, FlagScan.rest]
  | cons c s ih =>
    unfold simpleFormat
    split_ifs
    any_goals exact (ih _).trans (List.suffix_cons c s)
    · exact List.suffix_cons c s
    · exact List.suffix_refl _

theorem verbSwitch_rest {α : Type} (R : Operand α) (a : List α) (s : Scan) (verb : Char)
    (rest : List Char) : (verbSwitch R a s verb rest).rest = rest := by
  unfold verbSwitch
  split
  · rfl
  · split
    · rfl
    · split <;> rfl

theorem verb_suffix {α : Type} (R : Operand α) (a : List α) (s : Scan) :
    (verb R a s).rest <:+ s.rest := by
  unfold verb
  split
  · exact List.nil_suffix
  · rename_i c rest h
    rw [verbSwitch_rest, h]
    exact List.suffix_cons _ _

theorem processVerb_suffix {α : Type} (R : Operand α) (a : List α) (argNum : Nat)
    (reordered : Bool) (format : List Char) :
    (processVerb R a argNum reordered format).rest <:+ format := by
  unfold processVerb
  split
  · rename_i f c rest h
    have h1 := simpleFormat_suffix a.length argNum {} format
    rw [h] at h1
    split <;> exact h1
  · rename_i f rest h
    have h1 := simpleFormat_suffix a.length argNum {} format
    rw [h] at h1
    exact (((((verb_suffix R a _).trans (verbIndex_suffix a.length _)).trans
      (precision_suffix R a _)).trans (width_suffix R a _)).trans
      (argNumber_suffix a.length _)).trans h1

/-! ### The format loop has fuel enough -/

theorem dropWhile_tail_length (p : Char → Bool) (format : List Char) (c : Char) (s : List Char)
    (h : format.dropWhile p = c :: s) : s.length < format.length := by
  have h1 : (c :: s).length ≤ format.length := h ▸ (List.dropWhile_suffix p).length_le
  simp at h1
  omega

theorem formatLoop_fuel {α : Type} (R : Operand α) (a : List α) (fuel1 fuel2 : Nat)
    (format : List Char) (argNum : Nat) (reordered : Bool)
    (h1 : format.length < fuel1) (h2 : format.length < fuel2) :
    formatLoop R a fuel1 format argNum reordered
      = formatLoop R a fuel2 format argNum reordered := by
  induction fuel1 generalizing fuel2 format argNum reordered with
  | zero => omega
  | succ n ih =>
    cases fuel2 with
    | zero => omega
    | succ m =>
      unfold formatLoop
      split
      · rfl
      · rename_i c s h
        have hs := dropWhile_tail_length _ format c s h
        have hr := (processVerb_suffix R a argNum reordered s).length_le
        dsimp only
        rw [ih m (processVerb R a argNum reordered s).rest _ _ (by omega) (by omega)]

/-- Text without a `%` in front of a format is copied to the output, and the
format is then read as it would be on its own. -/
theorem formatLoop_literal {α : Type} (R : Operand α) (a : List α) (pre format : List Char)
    (argNum : Nat) (reordered : Bool) (hpre : ∀ c ∈ pre, c ≠ '%') :
    formatLoop R a ((pre ++ format).length + 1) (pre ++ format) argNum reordered
      = { formatLoop R a (format.length + 1) format argNum reordered with
          buf := pre ++ (formatLoop R a (format.length + 1) format argNum reordered).buf } := by
  have hp : ∀ c ∈ pre, (fun c => c != '%') c = true := by
    intro c hc
    simpa using hpre c hc
  unfold formatLoop
  rw [List.dropWhile_append_of_pos hp, List.takeWhile_append_of_pos hp]
  split
  · simp
  · rename_i c s h
    have hs := dropWhile_tail_length _ format c s h
    have hr := (processVerb_suffix R a argNum reordered s).length_le
    dsimp only
    rw [formatLoop_fuel R a (pre ++ format).length format.length
      (processVerb R a argNum reordered s).rest _ _ (by simp; omega) (by omega)]
    split <;> simp

/-! ### A newline after the format -/

theorem dropWhile_append_of_ne_nil {p : Char → Bool} {u : List Char} (t : List Char)
    (h : u.dropWhile p ≠ []) : (u ++ t).dropWhile p = u.dropWhile p ++ t := by
  induction u with
  | nil => simp at h
  | cons c u ih =>
    by_cases hc : p c = true
    · simp only [List.cons_append, List.dropWhile_cons_of_pos hc] at h ⊢
      exact ih h
    · simp only [List.cons_append, List.dropWhile_cons_of_neg hc]

theorem takeWhile_append_of_ne_nil {p : Char → Bool} {u : List Char} (t : List Char)
    (h : u.dropWhile p ≠ []) : (u ++ t).takeWhile p = u.takeWhile p := by
  induction u with
  | nil => simp at h
  | cons c u ih =>
    by_cases hc : p c = true
    · simp only [List.cons_append, List.dropWhile_cons_of_pos hc,
        List.takeWhile_cons_of_pos hc] at h ⊢
      rw [ih h]
    · simp only [List.cons_append, List.takeWhile_cons_of_neg hc]

theorem parsenumLoop_append (num : Int) (isnum : Bool) (s t : List Char)
    (h : (parsenumLoop num isnum s).2.2 ≠ []) :
    parsenumLoop num isnum (s ++ t)
      = ((parsenumLoop num isnum s).1, (parsenumLoop num isnum s).2.1,
          (parsenumLoop num isnum s).2.2 ++ t) := by
  induction s generalizing num isnum with
  | nil => simp [parsenumLoop] at h
  | cons c s ih =>
    simp only [List.cons_append]
    unfold parsenumLoop at h ⊢
    by_cases hd : isDigit c = true
    · simp only [hd, if_true] at h ⊢
      by_cases hl : tooLarge num = true
      · simp [hl] at h
      · simp only [hl] at h ⊢
        exact ih _ _ h
    · simp [hd]

theorem parsenum_append (s t : List Char) (h : (parsenum s).2.2 ≠ []) :
    parsenum (s ++ t) = ((parsenum s).1, (parsenum s).2.1, (parsenum s).2.2 ++ t) := by
  cases s with
  | nil => simp [parsenum] at h
  | cons c s =>
    simp only [parsenum, List.cons_append] at h ⊢
    exact parsenumLoop_append 0 false (c :: s) t h

theorem byteLen_cons (c : Char) (u : List Char) : byteLen (c :: u) = c.utf8Size + byteLen u := by
  simp [byteLen]

theorem length_le_byteLen (u : List Char) : u.length ≤ byteLen u := by
  induction u with
  | nil => simp [byteLen]
  | cons c u ih =>
    rw [byteLen_cons]
    have := Char.utf8Size_pos c
    simp only [List.length_cons]
    omega

theorem parseArgNumber_append_nl (c : Char) (u : List Char) (h : u ≠ [']']) :
    parseArgNumber (c :: u ++ ['\n'])
      = ((parseArgNumber (c :: u)).1, (parseArgNumber (c :: u)).2.1 ++ ['\n'],
          (parseArgNumber (c :: u)).2.2) := by
  unfold parseArgNumber
  simp only [List.drop_succ_cons, List.drop_zero, List.cons_append]
  by_cases h3 : byteLen (c :: u) < 3
  · rw [if_pos h3]
    by_cases h4 : byteLen (c :: (u ++ ['\n'])) < 3
    · rw [if_pos h4]
    · rw [if_neg h4]
      have hl : u.length ≤ 1 := by
        have h5 := length_le_byteLen u
        have h6 := Char.utf8Size_pos c
        rw [byteLen_cons] at h3
        omega
      have hd : (u ++ ['\n']).dropWhile (fun c => c != ']') = [] := by
        match u, h, hl with
        | [], _, _ => decide
        | [x], hx, _ =>
          have hx1 : x ≠ ']' := fun e => hx (by rw [e])
          simp [hx1]
        | _ :: _ :: _, _, hl => simp at hl
      rw [hd]
  · have h4 : ¬ byteLen (c :: (u ++ ['\n'])) < 3 := by
      have h5 : byteLen (c :: (u ++ ['\n'])) = byteLen (c :: u) + 1 := by
        simp [byteLen]
        rfl
      omega
    rw [if_neg h3, if_neg h4]
    by_cases hd : u.dropWhile (fun c => c != ']') = []
    · have hd1 : (u ++ ['\n']).dropWhile (fun c => c != ']') = [] := by
        rw [List.dropWhile_append_of_pos]
        · decide
        · intro a ha
          exact (List.dropWhile_eq_nil_iff.mp hd) a ha
      rw [hd, hd1]
    · rw [dropWhile_append_of_ne_nil _ hd, takeWhile_append_of_ne_nil _ hd]
      match hm : u.dropWhile (fun c => c != ']'), hd with
      | d :: after, _ =>
        simp only [List.cons_append]
        split <;> rfl

theorem argNumber_app_nl (numArgs : Nat) (s : Scan) (h : s.rest ≠ ['[', ']']) :
    argNumber numArgs (s.app ['\n']) = (argNumber numArgs s).app ['\n'] := by
  rcases s with ⟨out, f, ro, good, n, ai, rest⟩
  simp only at h
  cases rest with
  | nil => simp [argNumber, Scan.app]
  | cons c u =>
    by_cases hc : c = '['
    · subst hc
      have hu : u ≠ [']'] := fun e => h (by rw [e])
      have hp := parseArgNumber_append_nl '[' u hu
      rcases hq : parseArgNumber ('[' :: u) with ⟨idx, r, ok⟩
      rw [hq] at hp
      simp only [List.cons_append] at hp
      simp only [argNumber, Scan.app, List.cons_append, hp, hq, bne_self_eq_false,
        Bool.false_eq_true, if_false]
      split <;> rfl
    · simp [argNumber, Scan.app, hc]

theorem width_app_nl {α : Type} (R : Operand α) (a : List α) (s : Scan)
    (h : (width R a s).rest ≠ []) :
    width R a (s.app ['\n']) = (width R a s).app ['\n'] := by
  rcases s with ⟨out, f, ro, good, n, ai, rest⟩
  cases rest with
  | nil => simp [width, parsenum] at h
  | cons c u =>
    by_cases hc : c = '*'
    · subst hc
      simp only [width, Scan.app, List.cons_append]
    · unfold width at h ⊢
      simp only [Scan.app, List.cons_append] at h ⊢
      split at h
      · rename_i heq
        simp at heq
        exact absurd heq.1 hc
      · split
        · rename_i heq
          simp at heq
          exact absurd heq.1 hc
        · have hp := parsenum_append (c :: u) ['\n'] h
          simp only [List.cons_append] at hp
          rw [hp]

theorem precisionNum_app_nl {α : Type} (R : Operand α) (a : List α) (s : Scan)
    (h : (precisionNum R a s).rest ≠ []) :
    precisionNum R a (s.app ['\n']) = (precisionNum R a s).app ['\n'] := by
  rcases s with ⟨out, f, ro, good, n, ai, rest⟩
  cases rest with
  | nil => simp [precisionNum, parsenum] at h
  | cons c u =>
    by_cases hc : c = '*'
    · subst hc
      simp only [precisionNum, Scan.app, List.cons_append]
    · unfold precisionNum at h ⊢
      simp only [Scan.app, List.cons_append] at h ⊢
      split at h
      · rename_i heq
        simp at heq
        exact absurd heq.1 hc
      · split
        · rename_i heq
          simp at heq
          exact absurd heq.1 hc
        · have hp := parsenum_append (c :: u) ['\n'] h
          simp only [List.cons_append] at hp
          rw [hp]

theorem precision_app_nl {α : Type} (R : Operand α) (a : List α) (s : Scan)
    (hb : ¬ ['[', ']'] <:+ s.rest) (h : (precision R a s).rest ≠ []) :
    precision R a (s.app ['\n']) = (precision R a s).app ['\n'] := by
  rcases s with ⟨out, f, ro, good, n, ai, rest⟩
  cases rest with
  | nil => simp [precision] at h
  | cons c u =>
    by_cases hc : c = '.'
    · subst hc
      have hu : u ≠ ['[', ']'] := fun e => hb (by rw [e]; exact List.suffix_cons _ _)
      simp only [precision, Scan.app, List.cons_append] at h ⊢
      have h1 := argNumber_app_nl a.length
        ⟨out, f, ro, if ai then false else good, n, ai, u⟩ hu
      simp only [Scan.app] at h1
      rw [h1]
      exact precisionNum_app_nl R a _ h
    · unfold precision
      simp only [Scan.app, List.cons_append]
      split
      · rename_i heq
        simp at heq
        exact absurd heq.1 hc
      · split
        · rename_i heq
          simp at heq
          exact absurd heq.1 hc
        · rfl

theorem verbIndex_app_nl (numArgs : Nat) (s : Scan) (hb : ¬ ['[', ']'] <:+ s.rest) :
    verbIndex numArgs (s.app ['\n']) = (verbIndex numArgs s).app ['\n'] := by
  unfold verbIndex
  by_cases h : s.afterIndex = true
  · simp [h, Scan.app]
  · have h1 : (s.app ['\n']).afterIndex = s.afterIndex := rfl
    rw [h1, if_neg h, if_neg h]
    exact argNumber_app_nl numArgs s (fun e => hb (by rw [e]))

theorem verbSwitch_app {α : Type} (R : Operand α) (a : List α) (s : Scan) (c : Char)
    (rest t : List Char) :
    verbSwitch R a (s.app t) c (rest ++ t) = (verbSwitch R a s c rest).app t := by
  unfold verbSwitch
  simp only [Scan.app, VerbResult.app]
  split
  · rfl
  · split
    · rfl
    · split <;> rfl

theorem verb_app_nl {α : Type} (R : Operand α) (a : List α) (s : Scan)
    (h : (verb R a s).noVerb = false) :
    verb R a (s.app ['\n']) = (verb R a s).app ['\n'] := by
  rcases s with ⟨out, f, ro, good, n, ai, rest⟩
  cases rest with
  | nil => simp [verb] at h
  | cons c u =>
    have := verbSwitch_app R a ⟨out, f, ro, good, n, ai, c :: u⟩ c u ['\n']
    simpa [verb, Scan.app] using this

theorem simpleFormat_app_nl (numArgs argNum : Nat) (f : FmtFlags) (s : List Char) :
    simpleFormat numArgs argNum f (s ++ ['\n'])
      = (simpleFormat numArgs argNum f s).app ['\n'] := by
  induction s generalizing f with
  | nil =>
    simp only [List.nil_append, simpleFormat, FlagScan.app]
    rw [if_neg (by decide), if_neg (by decide), if_neg (by decide), if_neg (by decide),
      if_neg (by decide)]
    have : (decide ('a' ≤ '\n') && decide ('\n' ≤ 'z') && decide (argNum < numArgs)) = false := by
      have : decide ('a' ≤ '\n') = false := by decide
      simp [this]
    rw [this]
    rfl
  | cons c s ih =>
    simp only [List.cons_append]
    unfold simpleFormat
    split_ifs
    any_goals exact ih _
    all_goals rfl

theorem verb_rest_nil {α : Type} (R : Operand α) (a : List α) (s : Scan)
    (h : (verb R a s).noVerb = false) : s.rest ≠ [] := by
  intro e
  simp [verb, e] at h

theorem ne_nil_of_suffix {u v : List Char} (h : u <:+ v) (hu : u ≠ []) : v ≠ [] := by
  intro e
  subst e
  exact hu (List.suffix_nil.mp h)

theorem processVerb_app_nl {α : Type} (R : Operand α) (a : List α) (argNum : Nat)
    (reordered : Bool) (s : List Char) (hb : ¬ ['[', ']'] <:+ s)
    (h : (processVerb R a argNum reordered s).noVerb = false) :
    processVerb R a argNum reordered (s ++ ['\n'])
      = (processVerb R a argNum reordered s).app ['\n'] := by
  have hsuf := simpleFormat_suffix a.length argNum {} s
  unfold processVerb at h ⊢
  rw [simpleFormat_app_nl]
  cases hsf : simpleFormat a.length argNum {} s with
  | simple f c rest =>
    simp only [FlagScan.app, VerbResult.app]
    split <;> rfl
  | complex f rest =>
    rw [hsf] at h hsuf
    simp only [FlagScan.rest] at hsuf
    simp only [FlagScan.app] at h ⊢
    have e0 : (⟨[], f, reordered, true, argNum, false, rest ++ ['\n']⟩ : Scan)
        = Scan.app ⟨[], f, reordered, true, argNum, false, rest⟩ ['\n'] := rfl
    rw [e0]
    generalize hs0 : (⟨[], f, reordered, true, argNum, false, rest⟩ : Scan) = s0 at h ⊢
    have hr0 : s0.rest <:+ s := by rw [← hs0]; exact hsuf
    have h4 := verb_rest_nil R a _ h
    have hr3 := verbIndex_suffix a.length (precision R a (width R a (argNumber a.length s0)))
    have hr2 := precision_suffix R a (width R a (argNumber a.length s0))
    have hr1 := width_suffix R a (argNumber a.length s0)
    have hr := argNumber_suffix a.length s0
    have h3 := ne_nil_of_suffix hr3 h4
    have h2 := ne_nil_of_suffix hr2 h3
    rw [argNumber_app_nl a.length s0 (fun e => hb (e ▸ hr0)),
      width_app_nl R a _ h2,
      precision_app_nl R a _ (fun e => hb (e.trans ((hr1.trans hr).trans hr0))) h3,
      verbIndex_app_nl a.length _ (fun e => hb (e.trans (((hr2.trans hr1).trans hr).trans hr0))),
      verb_app_nl R a _ h]

theorem formatLoop_app_nl {α : Type} (R : Operand α) (a : List α) (fuel : Nat)
    (s : List Char) (argNum : Nat) (reordered : Bool) (hf : s.length < fuel)
    (hb : ¬ ['[', ']'] <:+ s) (h : (formatLoop R a fuel s argNum reordered).noVerb = false) :
    formatLoop R a (fuel + 1) (s ++ ['\n']) argNum reordered
      = { formatLoop R a fuel s argNum reordered with
          buf := (formatLoop R a fuel s argNum reordered).buf ++ ['\n'] } := by
  induction fuel generalizing s argNum reordered with
  | zero => omega
  | succ k ih =>
    unfold formatLoop at h ⊢
    by_cases hd : s.dropWhile (fun c => c != '%') = []
    · have hall : ∀ c ∈ s, (fun c => c != '%') c = true := List.dropWhile_eq_nil_iff.mp hd
      have hd1 : (s ++ ['\n']).dropWhile (fun c => c != '%') = [] := by
        rw [List.dropWhile_append_of_pos hall]
        decide
      have ht1 : (s ++ ['\n']).takeWhile (fun c => c != '%') = s ++ ['\n'] := by
        rw [List.takeWhile_append_of_pos hall]
        rfl
      have ht : s.takeWhile (fun c => c != '%') = s := List.takeWhile_eq_self_iff.mpr hall
      simp only [hd, hd1, ht, ht1]
    · rw [dropWhile_append_of_ne_nil _ hd, takeWhile_append_of_ne_nil _ hd]
      match hm : s.dropWhile (fun c => c != '%'), hd with
      | c :: s2, _ =>
        rw [hm] at h
        simp only [List.cons_append] at h ⊢
        have hs2 : s2 <:+ s :=
          (List.suffix_cons c s2).trans (hm ▸ List.dropWhile_suffix _)
        have hlen := dropWhile_tail_length _ s c s2 hm
        have hb2 : ¬ ['[', ']'] <:+ s2 := fun e => hb (e.trans hs2)
        by_cases hn : (processVerb R a argNum reordered s2).noVerb = true
        · simp [hn] at h
        · have hn' : (processVerb R a argNum reordered s2).noVerb = false := by
            simpa using hn
          have hrs := processVerb_suffix R a argNum reordered s2
          rw [processVerb_app_nl R a argNum reordered s2 hb2 hn']
          simp only [hn', VerbResult.app, Bool.false_eq_true, if_false] at h ⊢
          rw [ih _ _ _ (by have := hrs.length_le; omega) (fun e => hb2 (e.trans hrs)) h]
          simp

/-- The scan of `pre ++ f ++ "\n"` when `pre` holds no `%`, `f` does not end
in an unfinished directive nor in `[]`: the scan of `f` with `pre` in front of
the output and the newline after it. -/
theorem scan_wrap {α : Type} (R : Operand α) (a : List α) (pre f : List Char)
    (hpre : ∀ c ∈ pre, c ≠ '%') (hb : ¬ ['[', ']'] <:+ f) (h : (scan R f a).noVerb = false) :
    scan R (pre ++ (f ++ ['\n'])) a
      = { scan R f a with buf := pre ++ ((scan R f a).buf ++ ['\n']) } := by
  unfold scan at h ⊢
  rw [formatLoop_literal R a pre (f ++ ['\n']) 0 false hpre]
  have e : (f ++ ['\n']).length + 1 = (f.length + 1) + 1 := by simp
  rw [e, formatLoop_app_nl R a (f.length + 1) f 0 false (by omega) hb h]

theorem doPrintf_wrap {α : Type} (R : Operand α) (a : List α) (pre f : List Char)
    (hpre : ∀ c ∈ pre, c ≠ '%') (hb : ¬ ['[', ']'] <:+ f) (h : (scan R f a).noVerb = false)
    (hx : (scan R f a).reordered = true ∨ a.length ≤ (scan R f a).argNum) :
    doPrintf R (pre ++ (f ++ ['\n'])) a = pre ++ (doPrintf R f a ++ ['\n']) := by
  have hextra : extra R a (scan R f a) = [] := by
    unfold extra
    rcases hx with hx | hx
    · simp [hx]
    · have : ¬ (scan R f a).argNum < a.length := by omega
      simp [this]
  unfold doPrintf
  rw [scan_wrap R a pre f hpre hb h]
  have e : extra R a { scan R f a with buf := pre ++ ((scan R f a).buf ++ ['\n']) }
      = extra R a (scan R f a) := rfl
  rw [e, hextra]
  simp

end fmt

namespace util

/-! ### The logger, one call at a time -/

theorem Log_locked {α : Type} (R : fmt.Operand α) (σ : World) (f : String) (a : List α)
    (hl : σ.logMutex = true) : Log R σ f a = .blocked σ := by
  simp [Log, Lock, hl, Outcome.bind]

theorem Log_unlocked {α : Type} (R : fmt.Operand α) (σ : World) (f : String) (a : List α)
    (hl : σ.logMutex = false) :
    Log R σ f a =
      (match σ.logWriter with
        | none => .returned () σ
        | some d =>
          if σ.sigpipe d then
            .killed { σ.wrote d (fmt.Sprintf R (template σ.runPhase f) a) with logMutex := true }
          else .returned () (σ.wrote d (fmt.Sprintf R (template σ.runPhase f) a))) := by
  rcases σ with ⟨w, m, p, pre, fault, hdl, ws⟩
  simp only at hl
  subst hl
  cases w with
  | none => rfl
  | some d =>
    cases hs : World.sigpipe ⟨some d, false, p, pre, fault, hdl, ws⟩ d
    · have hs1 : World.sigpipe ⟨some d, true, p, pre, fault, hdl, ws⟩ d = false := hs
      simp only [hs, Log, Lock, Fprintf, Write, Outcome.bind, Bool.false_eq_true, if_false, hs1]
      rfl
    · have hs1 : World.sigpipe ⟨some d, true, p, pre, fault, hdl, ws⟩ d = true := hs
      simp only [hs, Log, Lock, Fprintf, Write, Outcome.bind, Bool.false_eq_true, if_false, hs1,
        if_true]
      rfl

theorem LogFatal_eq {α : Type} (R : fmt.Operand α) (σ : World) (d : os.File) (f : String)
    (a : List α) (hd : σ.logWriter = some d) :
    LogFatal R σ f a =
      (if σ.sigpipe d then .killed (σ.wrote d (fmt.Sprintf R f a))
      else if InPreprocess σ then
        (if (σ.wrote d (fmt.Sprintf R f a)).sigpipe os.Stderr then
          .killed ((σ.wrote d (fmt.Sprintf R f a)).wrote os.Stderr (fmt.Sprintf R f a))
        else .exited 1 ((σ.wrote d (fmt.Sprintf R f a)).wrote os.Stderr (fmt.Sprintf R f a)))
      else .exited 1 (σ.wrote d (fmt.Sprintf R f a))) := by
  rcases σ with ⟨w, m, p, pre, fault, hdl, ws⟩
  simp only at hd
  subst hd
  simp only [LogFatal, Fprintf, Write, Outcome.bind, InPreprocess, Exit]
  split_ifs <;> simp_all [Outcome.bind, World.wrote]

theorem LogFatal_nil {α : Type} (R : fmt.Operand α) (σ : World) (f : String)
    (a : List α) (hd : σ.logWriter = none) :
    LogFatal R σ f a =
      (if InPreprocess σ then
        (if σ.sigpipe os.Stderr then .killed (σ.wrote os.Stderr (fmt.Sprintf R f a))
        else .exited 1 (σ.wrote os.Stderr (fmt.Sprintf R f a)))
      else .exited 1 σ) := by
  rcases σ with ⟨w, m, p, pre, fault, hdl, ws⟩
  simp only at hd
  subst hd
  simp only [LogFatal, Fprintf, Write, Outcome.bind, InPreprocess, Exit]
  split_ifs <;> simp_all [Outcome.bind, World.wrote]

/-- No write of the run is killed by `SIGPIPE`. -/
theorem sigpipe_false_of_pipeDeath {σ : World} (h : ∀ k file, σ.pipeDeath k file = false)
    (file : os.File) : σ.sigpipe file = false :=
  h _ file

theorem pipeDeath_wrote (σ : World) (d : os.File) (b : String) (k : Nat) (file : os.File) :
    (σ.wrote d b).pipeDeath k file = σ.pipeDeath k file := rfl

theorem received_append (fd : Nat) (xs ys : List WriteCall) :
    received fd (xs ++ ys) = received fd xs ++ received fd ys := by
  induction xs with
  | nil => simp [received]
  | cons c cs ih => simp [received, ih, String.append_assoc]

theorem received_of_fd_ne (fd : Nat) (ws : List WriteCall) (h : ∀ c ∈ ws, c.fd ≠ fd) :
    received fd ws = "" := by
  induction ws with
  | nil => rfl
  | cons c cs ih =>
    have h1 : c.fd ≠ fd := h c (List.mem_cons_self c cs)
    have h2 := ih (fun x hx => h x (List.mem_cons_of_mem c hx))
    simp only [received, h1, if_false, h2]
    rfl

/-- The template rendered is the format rendered with the phase in front and
the newline behind, when the phase text holds no `%`, the format does not end
in `[]`, its scan does not stop at `%!(NOVERB)` and no operand is left over. -/
theorem Sprintf_template {α : Type} (R : fmt.Operand α) (P : RunPhase) (f : String)
    (a : List α) (hP : ∀ c ∈ P.String.data, c ≠ '%') (hb : ¬ ['[', ']'] <:+ f.data)
    (hn : (fmt.scan R f.data a).noVerb = false)
    (hx : (fmt.scan R f.data a).reordered = true ∨ a.length ≤ (fmt.scan R f.data a).argNum) :
    fmt.Sprintf R ("[" ++ P.String ++ "] " ++ f ++ "\n") a = specLine R P f a := by
  have hpre : ∀ c ∈ '[' :: (P.String.data ++ [']', ' ']), c ≠ '%' := by
    intro c hc
    rcases List.mem_cons.mp hc with h | h
    · rw [h]; decide
    · rcases List.mem_append.mp h with h | h
      · exact hP c h
      · rcases List.mem_cons.mp h with h | h
        · rw [h]; decide
        · rw [List.mem_singleton] at h
          rw [h]; decide
  have hw := fmt.doPrintf_wrap R a _ f.data hpre hb hn hx
  apply String.ext
  simp only [fmt.Sprintf, specLine, String.data_append]
  simp only [List.append_assoc, List.singleton_append, List.cons_append] at hw ⊢
  exact hw

theorem pipeDeath_of_no_fault {σ : World} (h : ∀ k fd, σ.fault k fd = none) (k : Nat)
    (file : os.File) : σ.pipeDeath k file = false := by
  simp [World.pipeDeath, h]

theorem take_length_string (b : String) : (⟨b.data.take b.length⟩ : String) = b := by
  have e : b.length = b.data.length := rfl
  apply String.ext
  simp only [e, List.take_length]

/-- With no write fault, `LogFatal` ends in the exit, after the destination
write and, in the preprocess phase, the echo. -/
theorem LogFatal_no_fault {α : Type} (R : fmt.Operand α) (σ : World) (d : os.File) (f : String)
    (a : List α) (hd : σ.logWriter = some d) (hok : ∀ k fd, σ.fault k fd = none) :
    LogFatal R σ f a = .exited 1
        (if InPreprocess σ then
          (σ.wrote d (fmt.Sprintf R f a)).wrote os.Stderr (fmt.Sprintf R f a)
        else σ.wrote d (fmt.Sprintf R f a))
      ∧ (LogFatal R σ f a).world.writes
        = σ.writes ++ ⟨d.fd, fmt.Sprintf R f a, (fmt.Sprintf R f a).length⟩ ::
            (if InPreprocess σ then
              [⟨os.Stderr.fd, fmt.Sprintf R f a, (fmt.Sprintf R f a).length⟩]
            else []) := by
  have h := LogFatal_eq R σ d f a hd
  have h1 : σ.sigpipe d = false := pipeDeath_of_no_fault hok _ d
  have h2 : (σ.wrote d (fmt.Sprintf R f a)).sigpipe os.Stderr = false :=
    pipeDeath_of_no_fault hok _ os.Stderr
  rw [h1, h2] at h
  simp only [Bool.false_eq_true, if_false] at h
  rw [h]
  cases hp : InPreprocess σ
  · simp [Outcome.world, World.wrote, hok, accepted]
  · simp [Outcome.world, World.wrote, hok, accepted]

/-- A caller that finds the mutex free and makes `Log` calls one after the
other: each call that is reached makes its one write on the destination, with
its line; the calls are all reached unless a write dies of a broken pipe. -/
theorem LogAll_unlocked {α : Type} (R : fmt.Operand α) (σ : World) (d : os.File)
    (calls : List (String × List α)) (hd : σ.logWriter = some d) (hl : σ.logMutex = false) :
    ∃ added, (LogAll R σ calls).world.writes = σ.writes ++ added
      ∧ (∀ c ∈ added, c.fd = d.fd)
      ∧ added.map WriteCall.buf
          <+: calls.map (fun c => fmt.Sprintf R (template σ.runPhase c.1) c.2)
      ∧ (∀ σ', LogAll R σ calls = .returned () σ' →
          σ'.logWriter = some d ∧ σ'.logMutex = false ∧ σ'.inPreprocess = σ.inPreprocess
          ∧ σ'.fault = σ.fault ∧ σ'.sigpipeHandled = σ.sigpipeHandled
          ∧ added.map WriteCall.fd = calls.map (fun _ => d.fd)
          ∧ added.map WriteCall.buf
              = calls.map (fun c => fmt.Sprintf R (template σ.runPhase c.1) c.2))
      ∧ ((∀ k file, σ.pipeDeath k file = false) → ∃ σ', LogAll R σ calls = .returned () σ') := by
  induction calls generalizing σ with
  | nil =>
    refine ⟨[], by simp [LogAll, Outcome.world], by simp, by simp, ?_, fun _ => ⟨σ, rfl⟩⟩
    intro σ' h
    simp only [LogAll, Outcome.returned.injEq, true_and] at h
    subst h
    exact ⟨hd, hl, rfl, rfl, rfl, rfl, rfl⟩
  | cons c cs ih =>
    have h1 := Log_unlocked R σ c.1 c.2 hl
    rw [hd] at h1
    simp only at h1
    cases hs : σ.sigpipe d
    · rw [hs] at h1
      simp only [Bool.false_eq_true, if_false] at h1
      obtain ⟨added, h2, h3, h4, h5, h6⟩ :=
        ih (σ.wrote d (fmt.Sprintf R (template σ.runPhase c.1) c.2)) hd hl
      have hL : LogAll R σ (c :: cs)
          = LogAll R (σ.wrote d (fmt.Sprintf R (template σ.runPhase c.1) c.2)) cs := by
        simp only [LogAll, h1, Outcome.bind]
      refine ⟨⟨d.fd, fmt.Sprintf R (template σ.runPhase c.1) c.2,
        accepted (σ.fault σ.writes.length d.fd) (fmt.Sprintf R (template σ.runPhase c.1) c.2)⟩
          :: added, ?_, ?_, ?_, ?_, ?_⟩
      · rw [hL, h2]
        simp [World.wrote]
      · intro x hx
        rcases List.mem_cons.mp hx with e | e
        · rw [e]
        · exact h3 x e
      · simp only [List.map_cons]
        exact List.prefix_cons_inj _ |>.mpr h4
      · intro σ' h
        rw [hL] at h
        obtain ⟨a1, a2, a3, a4, a5, a6, a7⟩ := h5 σ' h
        refine ⟨a1, a2, a3, a4, a5, ?_, ?_⟩
        · simp only [List.map_cons, a6]
        · simp only [List.map_cons, a7]
          rfl
      · intro hp
        rw [hL]
        exact h6 hp
    · rw [hs] at h1
      simp only [if_true] at h1
      have hL : LogAll R σ (c :: cs)
          = .killed { σ.wrote d (fmt.Sprintf R (template σ.runPhase c.1) c.2) with
              logMutex := true } := by
        simp only [LogAll, h1, Outcome.bind]
      refine ⟨[⟨d.fd, fmt.Sprintf R (template σ.runPhase c.1) c.2,
        accepted (σ.fault σ.writes.length d.fd) (fmt.Sprintf R (template σ.runPhase c.1) c.2)⟩],
        ?_, ?_, ?_, ?_, ?_⟩
      · rw [hL]
        rfl
      · intro x hx
        rw [List.mem_singleton.mp hx]
      · simp only [List.map_cons, List.map_nil]
        exact (List.prefix_cons_inj _).mpr (List.nil_prefix)
      · intro σ' h
        rw [hL] at h
        cases h
      · intro hp
        have := hp σ.writes.length d
        simp only [World.sigpipe] at hs
        rw [this] at hs
        cases hs

/-- The two ways `LogFatal` ends: the exit with status 1, and the death of the
process inside a write that hits a broken pipe. -/
theorem LogFatal_exits_or_killed {α : Type} (R : fmt.Operand α) (σ : World)
    (f : String) (a : List α) :
    ((∃ σ', LogFatal R σ f a = .exited 1 σ') ∨ (∃ σ', LogFatal R σ f a = .killed σ'))
      ∧ ((∀ k file, σ.pipeDeath k file = false) → ∃ σ', LogFatal R σ f a = .exited 1 σ')
      ∧ ((∃ σ', LogFatal R σ f a = .killed σ') →
          ∃ (k : Nat) (file : os.File) (ft : Fault), σ.fault k file.fd = some ft ∧ ft.epipe = true ∧
            file.stdoutOrErr = true ∧ σ.sigpipeHandled = false) := by
  have cause : ∀ (τ : World) (file : os.File), τ.fault = σ.fault →
      τ.sigpipeHandled = σ.sigpipeHandled → τ.sigpipe file = true →
      ∃ (k : Nat) (file : os.File) (ft : Fault), σ.fault k file.fd = some ft ∧ ft.epipe = true ∧
        file.stdoutOrErr = true ∧ σ.sigpipeHandled = false := by
    intro τ file hf hh hs
    simp only [World.sigpipe, World.pipeDeath, hf, hh] at hs
    cases hft : σ.fault τ.writes.length file.fd with
    | none => simp [hft] at hs
    | some ft =>
      simp only [hft, Bool.and_eq_true, Bool.not_eq_true'] at hs
      exact ⟨_, file, ft, hft, hs.1.1, hs.1.2, hs.2⟩
  cases hw : σ.logWriter with
  | none =>
    rw [LogFatal_nil R σ f a hw]
    cases hp : InPreprocess σ
    · simp only [Bool.false_eq_true, if_false]
      exact ⟨Or.inl ⟨_, rfl⟩, fun _ => ⟨_, rfl⟩, by rintro ⟨_, h⟩; cases h⟩
    · simp only [if_true]
      cases hs : σ.sigpipe os.Stderr
      · simp only [Bool.false_eq_true, if_false]
        exact ⟨Or.inl ⟨_, rfl⟩, fun _ => ⟨_, rfl⟩, by rintro ⟨_, h⟩; cases h⟩
      · simp only [if_true]
        refine ⟨Or.inr ⟨_, rfl⟩, fun hl => ?_, fun _ => cause σ os.Stderr rfl rfl hs⟩
        have := hl σ.writes.length os.Stderr
        simp only [World.sigpipe] at hs
        rw [this] at hs
        cases hs
  | some d =>
    rw [LogFatal_eq R σ d f a hw]
    cases hs : σ.sigpipe d
    · simp only [Bool.false_eq_true, if_false]
      cases hp : InPreprocess σ
      · simp only [Bool.false_eq_true, if_false]
        exact ⟨Or.inl ⟨_, rfl⟩, fun _ => ⟨_, rfl⟩, by rintro ⟨_, h⟩; cases h⟩
      · simp only [if_true]
        cases hs2 : (σ.wrote d (fmt.Sprintf R f a)).sigpipe os.Stderr
        · simp only [Bool.false_eq_true, if_false]
          exact ⟨Or.inl ⟨_, rfl⟩, fun _ => ⟨_, rfl⟩, by rintro ⟨_, h⟩; cases h⟩
        · simp only [if_true]
          refine ⟨Or.inr ⟨_, rfl⟩, fun hl => ?_, fun _ => cause (σ.wrote d (fmt.Sprintf R f a)) os.Stderr rfl rfl hs2⟩
          have := hl (σ.wrote d (fmt.Sprintf R f a)).writes.length os.Stderr
          simp only [World.sigpipe, pipeDeath_wrote] at hs2
          rw [this] at hs2
          cases hs2
    · simp only [if_true]
      refine ⟨Or.inr ⟨_, rfl⟩, fun hl => ?_, fun _ => cause σ d rfl rfl hs⟩
      have := hl σ.writes.length d
      simp only [World.sigpipe] at hs
      rw [this] at hs
      cases hs

/-- With no write killed by `SIGPIPE`, `LogFatal` ends in the exit, after the
destination write and, in the preprocess phase, the echo. -/
theorem LogFatal_no_pipeDeath {α : Type} (R : fmt.Operand α) (σ : World) (d : os.File)
    (f : String) (a : List α) (hd : σ.logWriter = some d)
    (hp : ∀ k file, σ.pipeDeath k file = false) :
    LogFatal R σ f a = .exited 1
        (if InPreprocess σ then
          (σ.wrote d (fmt.Sprintf R f a)).wrote os.Stderr (fmt.Sprintf R f a)
        else σ.wrote d (fmt.Sprintf R f a)) := by
  have h := LogFatal_eq R σ d f a hd
  have h1 : σ.sigpipe d = false := hp _ d
  have h2 : (σ.wrote d (fmt.Sprintf R f a)).sigpipe os.Stderr = false := hp _ os.Stderr
  rw [h, h1, h2]
  cases InPreprocess σ <;> simp

/-- The writes of `LogFatal` go to the destination and, in the preprocess
phase, to the error stream, however it ends. -/
theorem LogFatal_writes {α : Type} (R : fmt.Operand α) (σ : World) (d : os.File)
    (f : String) (a : List α) (hd : σ.logWriter = some d) :
    ∃ added, (LogFatal R σ f a).world.writes = σ.writes ++ added
      ∧ ∀ c ∈ added, c.fd = d.fd ∨ (InPreprocess σ = true ∧ c.fd = os.Stderr.fd) := by
  have h := LogFatal_eq R σ d f a hd
  rw [h]
  generalize (σ.wrote d (fmt.Sprintf R f a)).sigpipe os.Stderr = s2
  generalize σ.sigpipe d = s1
  cases hp : InPreprocess σ <;> cases s1 <;> cases s2 <;>
    simp only [Bool.false_eq_true, if_false, if_true, Outcome.world, World.wrote,
      List.append_assoc] <;>
    refine ⟨_, rfl, ?_⟩ <;> intro c hc <;> simp at hc <;>
    first
      | (subst hc; simp)
      | (rcases hc with hc | hc <;> subst hc <;> simp)

/-! ### Goroutines in `Log`: the invariant -/

theorem linesOf_append {α : Type} (R : fmt.Operand α) (P : RunPhase)
    (calls : List (String × List α)) (xs ys : List Nat) :
    linesOf R P calls (xs ++ ys) = linesOf R P calls xs ++ linesOf R P calls ys := by
  induction xs with
  | nil => rfl
  | cons i is ih => simp [linesOf, ih]

theorem goto_pc_self (c : Config) (i : Nat) (p : Pc) : (c.goto i p).pc i = p := by
  simp [Config.goto]

theorem goto_pc_other (c : Config) (i j : Nat) (p : Pc) (h : j ≠ i) :
    (c.goto i p).pc j = c.pc j := by
  simp [Config.goto, h]

theorem Write_char (σ : World) (d : os.File) (ch : Char) (hw : σ.logWriter = some d)
    (hs : ∀ k fd, σ.fault k fd = none) :
    Write σ σ.logWriter ⟨[ch]⟩ = .returned (1, false) (σ.wrote d ⟨[ch]⟩) := by
  rw [hw]
  simp only [Write, World.sigpipe, World.pipeDeath, hs, Bool.false_eq_true, if_false]
  rfl

theorem received_wrote_char (σ : World) (d : os.File) (ch : Char)
    (hs : ∀ k fd, σ.fault k fd = none) :
    (received d.fd (σ.wrote d ⟨[ch]⟩).writes).data = (received d.fd σ.writes).data ++ [ch] := by
  simp only [World.wrote, received_append, received, hs, accepted, if_true,
    String.data_append]
  rfl

theorem step_start {α : Type} (R : fmt.Operand α) (calls : List (String × List α)) (i : Nat)
    (c : Config) (call : String × List α) (hcall : calls[i]? = some call)
    (hpc : c.pc i = .start) :
    step R calls i c = some (c.goto i (.locking (template c.world.runPhase call.1))) := by
  simp only [step, hcall, hpc]
  rfl

theorem step_locking {α : Type} (R : fmt.Operand α) (calls : List (String × List α)) (i : Nat)
    (c : Config) (call : String × List α) (t : String) (hcall : calls[i]? = some call)
    (hpc : c.pc i = .locking t) :
    step R calls i c =
      if c.world.logMutex then none
      else some ({ c with world := { c.world with logMutex := true },
                          order := c.order ++ [i] }.goto i
        (.writing (fmt.Sprintf R t call.2).data)) := by
  simp only [step, hcall, hpc, Lock]
  cases c.world.logMutex <;> rfl

theorem step_writing_nil {α : Type} (R : fmt.Operand α) (calls : List (String × List α))
    (i : Nat) (c : Config) (call : String × List α) (hcall : calls[i]? = some call)
    (hpc : c.pc i = .writing []) :
    step R calls i c = some (c.goto i .unlocking) := by
  simp only [step, hcall, hpc]

theorem step_writing_cons {α : Type} (R : fmt.Operand α) (calls : List (String × List α))
    (i : Nat) (c : Config) (call : String × List α) (d : os.File) (ch : Char)
    (rest : List Char) (hcall : calls[i]? = some call) (hpc : c.pc i = .writing (ch :: rest))
    (hw : c.world.logWriter = some d) (hs : ∀ k fd, c.world.fault k fd = none) :
    step R calls i c
      = some ({ c with world := c.world.wrote d ⟨[ch]⟩ }.goto i (.writing rest)) := by
  simp only [step, hcall, hpc, Write_char c.world d ch hw hs]
  rfl

theorem step_unlocking {α : Type} (R : fmt.Operand α) (calls : List (String × List α))
    (i : Nat) (c : Config) (call : String × List α) (hcall : calls[i]? = some call)
    (hpc : c.pc i = .unlocking) :
    step R calls i c =
      if c.world.logMutex then
        some ({ c with world := { c.world with logMutex := false } }.goto i .done)
      else none := by
  simp only [step, hcall, hpc, Unlock]
  cases c.world.logMutex <;> rfl

theorem step_done {α : Type} (R : fmt.Operand α) (calls : List (String × List α))
    (i : Nat) (c : Config) (hpc : c.pc i = .done) : step R calls i c = none := by
  unfold step
  cases calls[i]? with
  | none => rfl
  | some call => simp [hpc]

theorem Inv_init {α : Type} (R : fmt.Operand α) (σ0 : World) (d : os.File)
    (calls : List (String × List α)) (hw : σ0.logWriter = some d)
    (hl : σ0.logMutex = false) (hs : ∀ k fd, σ0.fault k fd = none) :
    Inv R σ0 d calls (Config.init σ0) where
  writer := hw
  phase := rfl
  sound := hs
  nodup := List.nodup_nil
  bound := by intro i hi; simp [Config.init] at hi
  before := by intro i _; exact Or.inl rfl
  after := by intro i hi; simp [Config.init] at hi
  free := by
    intro _
    exact ⟨by intro i hi; simp [Config.init] at hi, by simp [Config.init, linesOf]⟩
  held := by
    intro h
    have : σ0.logMutex = true := h
    rw [hl] at this
    cases this

/-- A goroutine in the critical section holds the mutex and is the last of
`order`. -/
theorem Inv.holder {α : Type} {R : fmt.Operand α} {σ0 : World} {d : os.File}
    {calls : List (String × List α)} {c : Config} (inv : Inv R σ0 d calls c) (i : Nat)
    (hi : (∃ rest, c.pc i = .writing rest) ∨ c.pc i = .unlocking) :
    c.world.logMutex = true ∧ ∃ o, c.order = o ++ [i] ∧ i ∉ o ∧ (∀ j ∈ o, c.pc j = .done) := by
  have hmem : i ∈ c.order := by
    by_contra hn
    rcases inv.before i hn with h | ⟨call, _, h⟩ <;> rcases hi with ⟨rest, hr⟩ | hr <;>
      rw [h] at hr <;> cases hr
  have hm : c.world.logMutex = true := by
    cases hmx : c.world.logMutex
    · have := (inv.free hmx).1 i hmem
      rcases hi with ⟨rest, hr⟩ | hr <;> rw [this] at hr <;> cases hr
    · rfl
  refine ⟨hm, ?_⟩
  obtain ⟨o, h, ho, hdone, _⟩ := inv.held hm
  have hnd := inv.nodup
  rw [ho] at hmem hnd
  have hio : i ∉ o := by
    intro hio
    have := hdone i hio
    rcases hi with ⟨rest, hr⟩ | hr <;> rw [this] at hr <;> cases hr
  have hih : i = h := by
    rcases List.mem_append.mp hmem with h1 | h1
    · exact absurd h1 hio
    · simpa using h1
  subst hih
  exact ⟨o, ho, hio, hdone⟩

theorem Inv.held_at {α : Type} {R : fmt.Operand α} {σ0 : World} {d : os.File}
    {calls : List (String × List α)} {c : Config} (inv : Inv R σ0 d calls c) (i : Nat)
    (o : List Nat) (hm : c.world.logMutex = true) (ho : c.order = o ++ [i]) :
    (∃ w rest, c.pc i = .writing rest ∧ w ++ rest = lineOf R σ0.runPhase calls i ∧
        (received d.fd c.world.writes).data
          = (received d.fd σ0.writes).data ++ linesOf R σ0.runPhase calls o ++ w) ∨
      (c.pc i = .unlocking ∧
        (received d.fd c.world.writes).data
          = (received d.fd σ0.writes).data ++ linesOf R σ0.runPhase calls o
            ++ lineOf R σ0.runPhase calls i) := by
  obtain ⟨o', h', ho', _, hcase⟩ := inv.held hm
  rw [ho] at ho'
  have e := List.append_inj' ho' rfl
  have e1 : o = o' := e.1
  have e2 : i = h' := by simpa using e.2
  subst e1 e2
  exact hcase

theorem Inv.step {α : Type} {R : fmt.Operand α} {σ0 : World} {d : os.File}
    {calls : List (String × List α)} {c c' : Config} (inv : Inv R σ0 d calls c) (i : Nat)
    (h : util.step R calls i c = some c') : Inv R σ0 d calls c' := by
  cases hcall : calls[i]? with
  | none => simp [util.step, hcall] at h
  | some call =>
    have hiN : i < calls.length := by
      by_contra hn
      rw [List.getElem?_eq_none (by omega)] at hcall
      cases hcall
    cases hpc : c.pc i with
    | start =>
      rw [step_start R calls i c call hcall hpc, inv.phase] at h
      simp only [Option.some.injEq] at h
      subst h
      have hi : i ∉ c.order := by
        intro hi
        rcases inv.after i hi with ⟨r, hr⟩ | hr | hr <;> rw [hpc] at hr <;> cases hr
      have hsame : ∀ j ∈ c.order, (c.goto i (.locking (template σ0.runPhase call.1))).pc j
          = c.pc j := fun j hj => goto_pc_other c i j _ (fun e => hi (e ▸ hj))
      refine ⟨inv.writer, inv.phase, inv.sound, inv.nodup, inv.bound, ?_, ?_, ?_, ?_⟩
      · intro j hj
        by_cases hji : j = i
        · subst hji
          exact Or.inr ⟨call, hcall, goto_pc_self c j _⟩
        · rw [goto_pc_other c i j _ hji]
          exact inv.before j hj
      · intro j hj
        rw [hsame j hj]
        exact inv.after j hj
      · intro hm
        obtain ⟨h1, h2⟩ := inv.free hm
        exact ⟨fun j hj => (hsame j hj).trans (h1 j hj), h2⟩
      · intro hm
        obtain ⟨o, hh, ho, hdone, hcase⟩ := inv.held hm
        have hmemo : ∀ j ∈ o, j ∈ c.order := fun j hj => ho ▸ List.mem_append_left _ hj
        have hmemh : hh ∈ c.order := ho ▸ List.mem_append_right _ (List.mem_singleton_self hh)
        refine ⟨o, hh, ho, fun j hj => (hsame j (hmemo j hj)).trans (hdone j hj), ?_⟩
        rw [hsame hh hmemh]
        exact hcase
    | locking t =>
      rw [step_locking R calls i c call t hcall hpc] at h
      cases hm : c.world.logMutex with
      | true => simp [hm] at h
      | false =>
        simp only [hm, Bool.false_eq_true, if_false, Option.some.injEq] at h
        subst h
        have hi : i ∉ c.order := by
          intro hi
          rcases inv.after i hi with ⟨r, hr⟩ | hr | hr <;> rw [hpc] at hr <;> cases hr
        have ht : t = template σ0.runPhase call.1 := by
          rcases inv.before i hi with hs | ⟨call', hc', hl⟩
          · rw [hpc] at hs; cases hs
          · rw [hcall] at hc'
            cases hc'
            rw [hpc] at hl
            cases hl
            rfl
        obtain ⟨hdone, hout⟩ := inv.free hm
        refine ⟨inv.writer, inv.phase, inv.sound, ?_, ?_, ?_, ?_, ?_, ?_⟩
        · show (c.order ++ [i]).Nodup
          exact List.nodup_append.mpr ⟨inv.nodup, List.nodup_singleton i, by
            intro x hx hx'
            rw [List.mem_singleton] at hx'
            exact hi (hx' ▸ hx)⟩
        · intro j hj
          rcases List.mem_append.mp hj with hj | hj
          · exact inv.bound j hj
          · rw [List.mem_singleton] at hj
            exact hj ▸ hiN
        · intro j hj
          have hj1 : j ∉ c.order := fun e => hj (List.mem_append_left _ e)
          have hj2 : j ≠ i :=
            fun e => hj (e ▸ List.mem_append_right _ (List.mem_singleton_self j))
          rw [goto_pc_other _ i j _ hj2]
          exact inv.before j hj1
        · intro j hj
          by_cases hji : j = i
          · subst hji
            exact Or.inl ⟨_, goto_pc_self _ j _⟩
          · rw [goto_pc_other _ i j _ hji]
            rcases List.mem_append.mp hj with hj | hj
            · exact inv.after j hj
            · rw [List.mem_singleton] at hj
              exact absurd hj hji
        · intro hf
          cases hf
        · intro _
          refine ⟨c.order, i, rfl, ?_, Or.inl ⟨[], _, goto_pc_self _ i _, ?_, ?_⟩⟩
          · intro j hj
            rw [goto_pc_other _ i j _ (fun e => hi (e ▸ hj))]
            exact hdone j hj
          · simp [lineOf, hcall, ht]
          · simpa using hout
    | writing rest =>
      obtain ⟨hm, o, ho, hio, hdone⟩ := inv.holder i (Or.inl ⟨rest, hpc⟩)
      have hmemi : i ∈ c.order := ho ▸ List.mem_append_right _ (List.mem_singleton_self i)
      obtain ⟨w, rest', hw, hline, hout⟩ : ∃ w rest', c.pc i = .writing rest' ∧
          w ++ rest' = lineOf R σ0.runPhase calls i ∧
          (received d.fd c.world.writes).data
            = (received d.fd σ0.writes).data ++ linesOf R σ0.runPhase calls o ++ w := by
        rcases inv.held_at i o hm ho with hc | ⟨hc, _⟩
        · exact hc
        · rw [hpc] at hc; cases hc
      rw [hpc] at hw
      cases hw
      cases rest with
      | nil =>
        rw [step_writing_nil R calls i c call hcall hpc] at h
        simp only [Option.some.injEq] at h
        subst h
        refine ⟨inv.writer, inv.phase, inv.sound, inv.nodup, inv.bound, ?_, ?_, ?_, ?_⟩
        · intro j hj
          rw [goto_pc_other _ i j _ (fun e => hj (e ▸ hmemi))]
          exact inv.before j hj
        · intro j hj
          by_cases hji : j = i
          · subst hji
            exact Or.inr (Or.inl (goto_pc_self _ j _))
          · rw [goto_pc_other _ i j _ hji]
            exact inv.after j hj
        · intro hf
          have : c.world.logMutex = false := hf
          rw [hm] at this
          cases this
        · intro _
          refine ⟨o, i, ho, ?_, Or.inr ⟨goto_pc_self _ i _, ?_⟩⟩
          · intro j hj
            rw [goto_pc_other _ i j _ (fun e => hio (e ▸ hj))]
            exact hdone j hj
          · show (received d.fd c.world.writes).data = _
            rw [hout, ← hline]
            simp
      | cons ch rest =>
        rw [step_writing_cons R calls i c call d ch rest hcall hpc inv.writer inv.sound] at h
        simp only [Option.some.injEq] at h
        subst h
        refine ⟨inv.writer, inv.phase, inv.sound, inv.nodup, inv.bound, ?_, ?_, ?_, ?_⟩
        · intro j hj
          rw [goto_pc_other _ i j _ (fun e => hj (e ▸ hmemi))]
          exact inv.before j hj
        · intro j hj
          by_cases hji : j = i
          · subst hji
            exact Or.inl ⟨_, goto_pc_self _ j _⟩
          · rw [goto_pc_other _ i j _ hji]
            exact inv.after j hj
        · intro hf
          have : c.world.logMutex = false := hf
          rw [hm] at this
          cases this
        · intro _
          refine ⟨o, i, ho, ?_, Or.inl ⟨w ++ [ch], rest, goto_pc_self _ i _, ?_, ?_⟩⟩
          · intro j hj
            rw [goto_pc_other _ i j _ (fun e => hio (e ▸ hj))]
            exact hdone j hj
          · rw [← hline]
            simp
          · show (received d.fd (c.world.wrote d ⟨[ch]⟩).writes).data = _
            rw [received_wrote_char c.world d ch inv.sound, hout]
            simp
    | unlocking =>
      obtain ⟨hm, o, ho, hio, hdone⟩ := inv.holder i (Or.inr hpc)
      rw [step_unlocking R calls i c call hcall hpc, hm] at h
      simp only [if_true, Option.some.injEq] at h
      subst h
      have hmemi : i ∈ c.order := ho ▸ List.mem_append_right _ (List.mem_singleton_self i)
      have hout : (received d.fd c.world.writes).data
          = (received d.fd σ0.writes).data ++ linesOf R σ0.runPhase calls o
            ++ lineOf R σ0.runPhase calls i := by
        rcases inv.held_at i o hm ho with ⟨w, r, hc, _⟩ | ⟨_, hc⟩
        · rw [hpc] at hc; cases hc
        · exact hc
      refine ⟨inv.writer, inv.phase, inv.sound, inv.nodup, inv.bound, ?_, ?_, ?_, ?_⟩
      · intro j hj
        rw [goto_pc_other _ i j _ (fun e => hj (e ▸ hmemi))]
        exact inv.before j hj
      · intro j hj
        by_cases hji : j = i
        · subst hji
          exact Or.inr (Or.inr (goto_pc_self _ j _))
        · rw [goto_pc_other _ i j _ hji]
          exact inv.after j hj
      · intro _
        refine ⟨?_, ?_⟩
        · intro j hj
          by_cases hji : j = i
          · subst hji
            exact goto_pc_self _ j _
          · rw [goto_pc_other _ i j _ hji]
            have hj' : j ∈ o ++ [i] := ho ▸ hj
            rcases List.mem_append.mp hj' with hj1 | hj1
            · exact hdone j hj1
            · rw [List.mem_singleton] at hj1
              exact absurd hj1 hji
        · show (received d.fd c.world.writes).data = _ ++ linesOf R σ0.runPhase calls c.order
          rw [hout, ho, linesOf_append]
          simp [linesOf]
      · intro hf
        cases hf
    | done =>
      rw [step_done R calls i c hpc] at h
      cases h

theorem Inv.run {α : Type} {R : fmt.Operand α} {σ0 : World} {d : os.File}
    {calls : List (String × List α)} (sch : List Nat) {c c' : Config}
    (inv : Inv R σ0 d calls c) (h : util.run R calls sch c = some c') :
    Inv R σ0 d calls c' := by
  induction sch generalizing c with
  | nil =>
    simp only [util.run, Option.some.injEq] at h
    exact h ▸ inv
  | cons i sch ih =>
    unfold util.run at h
    cases hs : util.step R calls i c with
    | none => simp [hs] at h
    | some c1 =>
      rw [hs] at h
      exact ih (inv.step i hs) h

/-! ### Goroutines in `Log`: every run ends -/

theorem sum_range_step (f g : Nat → Nat) (N i : Nat) (hi : i < N) (hgi : g i + 1 = f i)
    (hg : ∀ j, j ≠ i → g j = f j) :
    ((List.range N).map g).sum + 1 = ((List.range N).map f).sum := by
  induction N with
  | zero => omega
  | succ n ih =>
    rw [List.range_succ, List.map_append, List.map_append, List.sum_append, List.sum_append]
    simp only [List.map_cons, List.map_nil, List.sum_cons, List.sum_nil, Nat.add_zero]
    by_cases hin : i = n
    · subst hin
      have : (List.range i).map g = (List.range i).map f := by
        apply List.map_congr_left
        intro j hj
        exact hg j (by rw [List.mem_range] at hj; omega)
      rw [this]
      omega
    · have h1 := ih (by omega)
      have h2 := hg n (fun e => hin e.symm)
      omega

theorem totalWork_step {α : Type} {R : fmt.Operand α} {σ0 : World} {d : os.File}
    {calls : List (String × List α)} {c c' : Config} (inv : Inv R σ0 d calls c) (i : Nat)
    (h : step R calls i c = some c') :
    totalWork R σ0.runPhase calls c' + 1 = totalWork R σ0.runPhase calls c := by
  cases hcall : calls[i]? with
  | none => simp [step, hcall] at h
  | some call =>
    have hiN : i < calls.length := by
      by_contra hn
      rw [List.getElem?_eq_none (by omega)] at hcall
      cases hcall
    have key : ∀ (e : Config) (p : Pc), e.pc = c.pc →
        work R σ0.runPhase calls i p + 1 = work R σ0.runPhase calls i (c.pc i) →
        totalWork R σ0.runPhase calls (e.goto i p) + 1 = totalWork R σ0.runPhase calls c := by
      intro e p he hw
      unfold totalWork
      apply sum_range_step _ _ _ i hiN
      · rw [goto_pc_self]
        exact hw
      · intro j hj
        rw [goto_pc_other _ _ _ _ hj, he]
    cases hpc : c.pc i with
    | start =>
      rw [step_start R calls i c call hcall hpc, inv.phase] at h
      simp only [Option.some.injEq] at h
      subst h
      apply key c _ rfl
      rw [hpc]
      simp [work, lineOf, hcall]
    | locking t =>
      rw [step_locking R calls i c call t hcall hpc] at h
      cases hm : c.world.logMutex with
      | true => simp [hm] at h
      | false =>
        simp only [hm, Bool.false_eq_true, if_false, Option.some.injEq] at h
        subst h
        apply key _ _ rfl
        rw [hpc]
        simp [work, hcall]
    | writing rest =>
      cases rest with
      | nil =>
        rw [step_writing_nil R calls i c call hcall hpc] at h
        simp only [Option.some.injEq] at h
        subst h
        apply key c _ rfl
        rw [hpc]
        simp [work]
      | cons ch rest =>
        rw [step_writing_cons R calls i c call d ch rest hcall hpc inv.writer inv.sound] at h
        simp only [Option.some.injEq] at h
        subst h
        apply key _ _ rfl
        rw [hpc]
        simp [work]
    | unlocking =>
      rw [step_unlocking R calls i c call hcall hpc] at h
      cases hm : c.world.logMutex with
      | false => simp [hm] at h
      | true =>
        simp only [hm, if_true, Option.some.injEq] at h
        subst h
        apply key _ _ rfl
        rw [hpc]
        simp [work]
    | done =>
      rw [step_done R calls i c hpc] at h
      cases h

theorem totalWork_run {α : Type} {R : fmt.Operand α} {σ0 : World} {d : os.File}
    {calls : List (String × List α)} (sch : List Nat) {c c' : Config}
    (inv : Inv R σ0 d calls c) (h : run R calls sch c = some c') :
    sch.length + totalWork R σ0.runPhase calls c' = totalWork R σ0.runPhase calls c := by
  induction sch generalizing c with
  | nil =>
    simp only [run, Option.some.injEq] at h
    subst h
    simp
  | cons i sch ih =>
    unfold run at h
    cases hs : step R calls i c with
    | none => simp [hs] at h
    | some c1 =>
      rw [hs] at h
      have h1 := ih (inv.step i hs) h
      have h2 := totalWork_step inv i hs
      simp only [List.length_cons]
      omega

/-- A goroutine that has not returned can move, or the holder of the mutex
can. -/
theorem Inv.progress {α : Type} {R : fmt.Operand α} {σ0 : World} {d : os.File}
    {calls : List (String × List α)} {c : Config} (inv : Inv R σ0 d calls c) (i : Nat)
    (hi : i < calls.length) (hnd : c.pc i ≠ .done) :
    ∃ j, j < calls.length ∧ (util.step R calls j c).isSome = true := by
  have hcall : calls[i]? = some calls[i] := List.getElem?_eq_getElem hi
  have holder : ∀ h, h < calls.length →
      ((∃ rest, c.pc h = .writing rest) ∨ c.pc h = .unlocking) →
      (util.step R calls h c).isSome = true := by
    intro h hh hcase
    have hcallh : calls[h]? = some calls[h] := List.getElem?_eq_getElem hh
    have hm := (inv.holder h hcase).1
    rcases hcase with ⟨rest, hw⟩ | hu
    · cases rest with
      | nil => rw [step_writing_nil R calls h c _ hcallh hw]; rfl
      | cons ch rest =>
        rw [step_writing_cons R calls h c _ d ch rest hcallh hw inv.writer inv.sound]; rfl
    · rw [step_unlocking R calls h c _ hcallh hu, hm]; rfl
  cases hpc : c.pc i with
  | start => exact ⟨i, hi, by rw [step_start R calls i c _ hcall hpc]; rfl⟩
  | locking t =>
    cases hm : c.world.logMutex with
    | false => exact ⟨i, hi, by rw [step_locking R calls i c _ t hcall hpc, hm]; rfl⟩
    | true =>
      obtain ⟨o, h, ho, _, hcase⟩ := inv.held hm
      have hh : h < calls.length :=
        inv.bound h (ho ▸ List.mem_append_right _ (List.mem_singleton_self h))
      refine ⟨h, hh, holder h hh ?_⟩
      rcases hcase with ⟨w, rest, hw, _, _⟩ | ⟨hu, _⟩
      · exact Or.inl ⟨rest, hw⟩
      · exact Or.inr hu
  | writing rest => exact ⟨i, hi, holder i hi (Or.inl ⟨rest, hpc⟩)⟩
  | unlocking => exact ⟨i, hi, holder i hi (Or.inr hpc)⟩
  | done => exact absurd hpc hnd

/-- Once every goroutine has returned the mutex is free, `order` lists every
goroutine once, and the destination has received their outputs in that
order. -/
theorem Inv.final {α : Type} {R : fmt.Operand α} {σ0 : World} {d : os.File}
    {calls : List (String × List α)} {c : Config} (inv : Inv R σ0 d calls c)
    (hdone : ∀ i, i < calls.length → c.pc i = .done) :
    c.world.logMutex = false ∧ c.order.Perm (List.range calls.length) ∧
      (received d.fd c.world.writes).data
        = (received d.fd σ0.writes).data ++ linesOf R σ0.runPhase calls c.order := by
  have hm : c.world.logMutex = false := by
    cases hmx : c.world.logMutex
    · rfl
    · obtain ⟨o, h, ho, _, hcase⟩ := inv.held hmx
      have hh : h < calls.length :=
        inv.bound h (ho ▸ List.mem_append_right _ (List.mem_singleton_self h))
      have := hdone h hh
      rcases hcase with ⟨w, rest, hw, _, _⟩ | ⟨hu, _⟩
      · rw [this] at hw; cases hw
      · rw [this] at hu; cases hu
  refine ⟨hm, ?_, (inv.free hm).2⟩
  rw [List.perm_ext_iff_of_nodup inv.nodup (List.nodup_range _)]
  intro i
  rw [List.mem_range]
  constructor
  · exact inv.bound i
  · intro hi
    by_contra hn
    have := hdone i hi
    rcases inv.before i hn with h | ⟨_, _, h⟩ <;> rw [this] at h <;> cases h

/-! ### A goroutine alone is a `Log` call -/

theorem run_append {α : Type} (R : fmt.Operand α) (calls : List (String × List α))
    (xs ys : List Nat) (c : Config) :
    run R calls (xs ++ ys) c =
      (match run R calls xs c with
        | none => none
        | some c1 => run R calls ys c1) := by
  induction xs generalizing c with
  | nil => rfl
  | cons i xs ih =>
    simp only [List.cons_append, run]
    cases step R calls i c with
    | none => rfl
    | some c1 => exact ih c1

theorem received_data_wrote (σ : World) (d : os.File) (b : String) (fd : Nat)
    (hs : ∀ k fd, σ.fault k fd = none) :
    (received fd (σ.wrote d b).writes).data
      = (received fd σ.writes).data ++ (if d.fd = fd then b.data else []) := by
  simp only [World.wrote, received_append, received, hs, accepted, String.data_append]
  split_ifs
  · have e : b.length = b.data.length := rfl
    simp only [e, List.take_length, List.append_nil]
  · rfl

/-- The write of a buffer, one character a step. -/
theorem run_writing {α : Type} (R : fmt.Operand α) (calls : List (String × List α)) (i : Nat)
    (call : String × List α) (d : os.File) (hcall : calls[i]? = some call)
    (rest : List Char) (c : Config) (hpc : c.pc i = .writing rest)
    (hw : c.world.logWriter = some d) (hs : ∀ k fd, c.world.fault k fd = none) :
    ∃ c', run R calls (List.replicate rest.length i) c = some c' ∧ c'.pc i = .writing [] ∧
      c'.world.logMutex = c.world.logMutex ∧ c'.world.logWriter = c.world.logWriter ∧
      ∀ fd, (received fd c'.world.writes).data
        = (received fd c.world.writes).data ++ (if d.fd = fd then rest else []) := by
  induction rest generalizing c with
  | nil => exact ⟨c, rfl, hpc, rfl, rfl, by intro fd; split_ifs <;> simp⟩
  | cons ch rest ih =>
    have hstep := step_writing_cons R calls i c call d ch rest hcall hpc hw hs
    obtain ⟨c', h1, h2, h3, h4, h5⟩ :=
      ih ({ c with world := c.world.wrote d ⟨[ch]⟩ }.goto i (.writing rest))
        (goto_pc_self _ i _) hw hs
    refine ⟨c', ?_, h2, h3, h4, ?_⟩
    · simp only [List.length_cons, List.replicate_succ, run, hstep]
      exact h1
    · intro fd
      rw [h5 fd]
      show (received fd (c.world.wrote d ⟨[ch]⟩).writes).data ++ _ = _
      rw [received_data_wrote c.world d ⟨[ch]⟩ fd hs]
      split_ifs <;> simp

/-- A goroutine that runs alone from the start, with the mutex free, goes
through its steps without a stop and leaves the shared state as a lone `Log`
call does: the mutex free again, the destination unchanged, every stream with
the same characters. -/
theorem solo_run {α : Type} (R : fmt.Operand α) (σ0 : World) (d : os.File)
    (calls : List (String × List α)) (i : Nat) (call : String × List α)
    (hw : σ0.logWriter = some d) (hl : σ0.logMutex = false)
    (hs : ∀ k fd, σ0.fault k fd = none) (hcall : calls[i]? = some call) :
    ∃ c', run R calls (List.replicate ((lineOf R σ0.runPhase calls i).length + 4) i)
          (Config.init σ0) = some c'
      ∧ c'.pc i = .done
      ∧ Log R σ0 call.1 call.2 = .returned () (Log R σ0 call.1 call.2).world
      ∧ c'.world.logMutex = (Log R σ0 call.1 call.2).world.logMutex
      ∧ c'.world.logWriter = (Log R σ0 call.1 call.2).world.logWriter
      ∧ ∀ fd, (received fd c'.world.writes).data
          = (received fd (Log R σ0 call.1 call.2).world.writes).data := by
  have hsig : σ0.sigpipe d = false := by
    simp [World.sigpipe, World.pipeDeath, hs]
  have hLog : Log R σ0 call.1 call.2
      = .returned () (σ0.wrote d (fmt.Sprintf R (template σ0.runPhase call.1) call.2)) := by
    rw [Log_unlocked R σ0 call.1 call.2 hl, hw]
    simp only [hsig, Bool.false_eq_true, if_false]
  have hline : lineOf R σ0.runPhase calls i
      = (fmt.Sprintf R (template σ0.runPhase call.1) call.2).data := by
    simp [lineOf, hcall]
  -- the first two steps: the template, then the lock
  have h1 := step_start R calls i (Config.init σ0) call hcall rfl
  have h2 := step_locking R calls i
    ((Config.init σ0).goto i (.locking (template σ0.runPhase call.1))) call
    (template σ0.runPhase call.1) hcall (goto_pc_self _ i _)
  have hm2 : ((Config.init σ0).goto i (.locking (template σ0.runPhase call.1))).world.logMutex
      = false := hl
  rw [hm2] at h2
  simp only [Bool.false_eq_true, if_false] at h2
  -- the write
  obtain ⟨c3, h3, hpc3, hm3, hw3, hr3⟩ := run_writing R calls i call d hcall
    (fmt.Sprintf R (template σ0.runPhase call.1) call.2).data
    ({ (Config.init σ0).goto i (.locking (template σ0.runPhase call.1)) with
        world := { σ0 with logMutex := true }, order := [] ++ [i] }.goto i
      (.writing (fmt.Sprintf R (template σ0.runPhase call.1) call.2).data))
    (goto_pc_self _ i _) hw hs
  -- the last two steps: the end of the write, then the unlock
  have h4 := step_writing_nil R calls i c3 call hcall hpc3
  have h5 := step_unlocking R calls i (c3.goto i .unlocking) call hcall (goto_pc_self _ i _)
  have hm5 : (c3.goto i .unlocking).world.logMutex = true := hm3
  rw [hm5] at h5
  simp only [if_true] at h5
  obtain ⟨c5, h5, hpc5, hw5⟩ : ∃ c5, step R calls i (c3.goto i .unlocking) = some c5 ∧
      c5.pc i = .done ∧ c5.world = { c3.world with logMutex := false } :=
    ⟨_, h5, goto_pc_self _ i _, rfl⟩
  refine ⟨c5, ?_, hpc5, ?_, ?_, ?_, ?_⟩
  · rw [hline]
    have e : (fmt.Sprintf R (template σ0.runPhase call.1) call.2).data.length + 4
        = 2 + ((fmt.Sprintf R (template σ0.runPhase call.1) call.2).data.length + 2) := by
      omega
    rw [e, List.replicate_add, List.replicate_add, run_append]
    have e2 : List.replicate 2 i = [i, i] := rfl
    rw [e2]
    simp only [run, h1]
    have h2' := h2
    simp only [Config.init, Config.goto] at h2' ⊢
    rw [h2']
    simp only [run_append]
    have h3' := h3
    simp only [Config.init, Config.goto, List.nil_append] at h3' ⊢
    rw [h3']
    simp only [run, h4, h5]
  · rw [hLog]
    rfl
  · rw [hLog, hw5]
    exact hl.symm ▸ rfl
  · rw [hLog, hw5]
    exact hw3
  · intro fd
    rw [hLog, hw5]
    show (received fd c3.world.writes).data = _
    rw [hr3 fd]
    simp only [Outcome.world]
    rw [received_data_wrote σ0 d _ fd hs]
    rfl

/-- From every configuration the goroutines reach, some schedule brings all
of them to the end of `Log`. -/
theorem Inv.complete {α : Type} {R : fmt.Operand α} {σ0 : World} {d : os.File}
    {calls : List (String × List α)} {c : Config} (inv : Inv R σ0 d calls c) :
    ∃ sch c', util.run R calls sch c = some c' ∧ ∀ i, i < calls.length → c'.pc i = .done := by
  generalize hn : totalWork R σ0.runPhase calls c = n
  induction n using Nat.strong_induction_on generalizing c with
  | _ n ih =>
    by_cases hd : ∀ i, i < calls.length → c.pc i = .done
    · exact ⟨[], c, rfl, hd⟩
    · push_neg at hd
      obtain ⟨i, hi, hnd⟩ := hd
      obtain ⟨j, _, hsome⟩ := inv.progress i hi hnd
      cases hs : util.step R calls j c with
      | none => rw [hs] at hsome; cases hsome
      | some c1 =>
        have inv1 := inv.step j hs
        have hw := totalWork_step inv j hs
        obtain ⟨sch, c', h1, h2⟩ :=
          ih (totalWork R σ0.runPhase calls c1) (by omega) inv1 rfl
        exact ⟨j :: sch, c', by simp [util.run, hs, h1], h2⟩

/-- A goroutine at `logMutex.Lock()` does not move while the mutex is held. -/
theorem step_locking_held {α : Type} (R : fmt.Operand α) (calls : List (String × List α))
    (i : Nat) (c : Config) (t : String) (hpc : c.pc i = .locking t)
    (hm : c.world.logMutex = true) : step R calls i c = none := by
  cases hcall : calls[i]? with
  | none => simp [step, hcall]
  | some call => simp [step, hcall, hpc, Lock, hm]

theorem lineOf_eq {α : Type} (R : fmt.Operand α) (P : RunPhase)
    (calls : List (String × List α)) (i : Nat) (call : String × List α)
    (hcall : calls[i]? = some call) :
    lineOf R P calls i = (fmt.Sprintf R ("[" ++ P.String ++ "] " ++ call.1 ++ "\n") call.2).data := by
  simp [lineOf, hcall, template]

/-! ### What the logger guarantees -/

/-- C1 (as amended).  A `Log` call that finds the mutex free and an open
destination `d` makes exactly one write, on `d`, whose buffer is
`fmt.Sprintf("[" + P.String() + "] " + f + "\n", a...)`: the phase prefix and
the newline are part of the format that is rendered.  It then returns, unless
that write dies of a broken pipe.  The buffer equals
`"[" + P.String() + "] " + fmt.Sprintf(f, a...) + "\n"` whenever `P.String()`
holds no `%`, `f` does not end in `[]`, the scan of `f` does not stop at the
`%!(NOVERB)` break, and no `%!(EXTRA ...)` report is due (an explicit
argument index was used, or every operand was consumed); operands missing for
a verb do not matter. -/
theorem Log_writes_rendered_template {α : Type} (R : fmt.Operand α) (σ : World) (d : os.File)
    (f : String) (a : List α) (hd : σ.logWriter = some d) (hl : σ.logMutex = false) :
    (Log R σ f a).world.writes
        = σ.writes ++
          [⟨d.fd, fmt.Sprintf R ("[" ++ (GetRunPhase σ).String ++ "] " ++ f ++ "\n") a,
            accepted (σ.fault σ.writes.length d.fd)
              (fmt.Sprintf R ("[" ++ (GetRunPhase σ).String ++ "] " ++ f ++ "\n") a)⟩]
      ∧ Log R σ f a =
          (if σ.sigpipe d then
            .killed
              { σ.wrote d
                  (fmt.Sprintf R ("[" ++ (GetRunPhase σ).String ++ "] " ++ f ++ "\n") a) with
                logMutex := true }
          else
            .returned ()
              (σ.wrote d
                (fmt.Sprintf R ("[" ++ (GetRunPhase σ).String ++ "] " ++ f ++ "\n") a)))
      ∧ ((∀ c ∈ (GetRunPhase σ).String.data, c ≠ '%') → ¬ ['[', ']'] <:+ f.data →
          (fmt.scan R f.data a).noVerb = false →
          ((fmt.scan R f.data a).reordered = true ∨ a.length ≤ (fmt.scan R f.data a).argNum) →
          fmt.Sprintf R ("[" ++ (GetRunPhase σ).String ++ "] " ++ f ++ "\n") a
            = specLine R (GetRunPhase σ) f a) := by
  have h := Log_unlocked R σ f a hl
  rw [hd] at h
  simp only at h
  refine ⟨?_, h, fun hP hb hn hx => Sprintf_template R (GetRunPhase σ) f a hP hb hn hx⟩
  rw [h]
  cases σ.sigpipe d <;> rfl

/-- Witness for C1: `Log("ready=%t", true)` in phase `preprocess` from the
initial state. -/
theorem Log_writes_rendered_template_witness :
    (Log fmt.goOperand (initial ⟨"preprocess"⟩ true (fun _ _ => none) false) "ready=%t"
        [fmt.Arg.bool true]).world.writes
      = [⟨1, "[preprocess] ready=true\n", 24⟩]
    ∧ (Log fmt.goOperand (initial ⟨"preprocess"⟩ true (fun _ _ => none) false) "ready=%t"
        [fmt.Arg.bool true]).isReturned = true
    ∧ fmt.Sprintf fmt.goOperand ("[" ++ "preprocess" ++ "] " ++ "ready=%t" ++ "\n")
        [fmt.Arg.bool true]
      = specLine fmt.goOperand ⟨"preprocess"⟩ "ready=%t" [fmt.Arg.bool true]
    ∧ specLine fmt.goOperand ⟨"preprocess"⟩ "ready=%t" [fmt.Arg.bool true]
      = "[preprocess] ready=true\n" :=
  ⟨(Log_writes_rendered_template fmt.goOperand
      (initial ⟨"preprocess"⟩ true (fun _ _ => none) false)
      os.Stdout "ready=%t" [fmt.Arg.bool true] rfl rfl).1.trans (by decide),
    by
      rw [(Log_writes_rendered_template fmt.goOperand
        (initial ⟨"preprocess"⟩ true (fun _ _ => none) false)
        os.Stdout "ready=%t" [fmt.Arg.bool true] rfl rfl).2.1]
      rfl,
    (Log_writes_rendered_template fmt.goOperand
      (initial ⟨"preprocess"⟩ true (fun _ _ => none) false)
      os.Stdout "ready=%t" [fmt.Arg.bool true] rfl rfl).2.2
      (by decide) (by decide) (by decide) (by decide),
    by decide⟩

/-- Counterexample to C1 as stated: in each of the three cases the claim
names, the line `Log` writes is not the caller's format rendered on its own
with prefix and newline around it.
* `Log("100%")`: the lone `%` takes the newline for its verb.
* `Log("done", true)`: the report of the extra operand comes after the newline.
* `Log("x")` with phase text `50%`: the `%` of the prefix takes `]` for its verb. -/
theorem Log_line_differs_from_spec :
    ((Log fmt.goOperand (initial ⟨"preprocess"⟩ true (fun _ _ => none) false) "100%"
          []).world.writes
        = [⟨1, "[preprocess] 100%!\n(MISSING)", 28⟩]
      ∧ specLine fmt.goOperand ⟨"preprocess"⟩ "100%" [] = "[preprocess] 100%!(NOVERB)\n")
    ∧ ((Log fmt.goOperand (initial ⟨"preprocess"⟩ true (fun _ _ => none) false) "done"
          [fmt.Arg.bool true]).world.writes
        = [⟨1, "[preprocess] done\n%!(EXTRA bool=true)", 37⟩]
      ∧ specLine fmt.goOperand ⟨"preprocess"⟩ "done" [fmt.Arg.bool true]
        = "[preprocess] done%!(EXTRA bool=true)\n")
    ∧ ((Log fmt.goOperand (initial ⟨"50%"⟩ false (fun _ _ => none) false) "x" []).world.writes
        = [⟨1, "[50%!](MISSING) x\n", 18⟩]
      ∧ specLine fmt.goOperand ⟨"50%"⟩ "x" [] = "[50%] x\n")
    ∧ (Log fmt.goOperand (initial ⟨"preprocess"⟩ true (fun _ _ => none) false) "100%"
        []).world.writes.map WriteCall.buf
        ≠ [specLine fmt.goOperand ⟨"preprocess"⟩ "100%" []] := by
  decide

/-- C2 (as amended).  `LogFatal` never returns, waits or panics.  It ends in
`os.Exit(1)`, whatever the format, the operands, the destination (nil
included), the lock state and the value of `InPreprocess()`, and whether its
writes succeed or fail with an error; the one other ending is the death of
the process by `SIGPIPE`, inside a write that hits a broken pipe on standard
output or standard error while the signal is neither ignored nor handled. -/
theorem LogFatal_exits_with_status_one_or_is_killed {α : Type} (R : fmt.Operand α) (σ : World)
    (f : String) (a : List α) :
    ((∃ σ', LogFatal R σ f a = .exited 1 σ') ∨ (∃ σ', LogFatal R σ f a = .killed σ'))
      ∧ ((∀ k file, σ.pipeDeath k file = false) → ∃ σ', LogFatal R σ f a = .exited 1 σ')
      ∧ ((∃ σ', LogFatal R σ f a = .killed σ') →
          ∃ (k : Nat) (file : os.File) (ft : Fault), σ.fault k file.fd = some ft ∧ ft.epipe = true ∧
            file.stdoutOrErr = true ∧ σ.sigpipeHandled = false) :=
  LogFatal_exits_or_killed R σ f a

/-- Witness for C2: every write fails with an error that is not a broken
pipe, in the preprocess phase; `LogFatal("boom")` ends in the exit with
status 1. -/
theorem LogFatal_exits_with_status_one_or_is_killed_witness :
    ∃ σ', LogFatal fmt.goOperand
        (initial ⟨"preprocess"⟩ true (fun _ _ => some ⟨0, false⟩) false) "boom" []
      = .exited 1 σ' :=
  (LogFatal_exits_with_status_one_or_is_killed fmt.goOperand
    (initial ⟨"preprocess"⟩ true (fun _ _ => some ⟨0, false⟩) false) "boom" []).2.1
    (fun _ _ => rfl)

/-- Counterexample to C2 as stated: standard output is a broken pipe and the
destination is the initial one.  The write of `LogFatal("boom")` raises
`SIGPIPE`, the process dies of it, and `os.Exit(1)` is not reached. -/
theorem LogFatal_killed_by_broken_pipe :
    (LogFatal fmt.goOperand (initial ⟨"instrument"⟩ false (fun _ _ => some ⟨0, true⟩) false)
        "boom" []).isKilled = true
    ∧ (LogFatal fmt.goOperand (initial ⟨"instrument"⟩ false (fun _ _ => some ⟨0, true⟩) false)
        "boom" []).exitCode = none
    ∧ (LogFatal fmt.goOperand (initial ⟨"instrument"⟩ false (fun _ _ => some ⟨0, true⟩) false)
        "boom" []).exitCode ≠ some 1 := by
  decide

/-- C3 (as amended).  With an open destination `d`, `LogFatal` writes the
rendered message `fmt.Sprintf(f, a...)` to `d` and, when `InPreprocess()`
holds, after that to `os.Stderr`, and then exits with status 1; a write that
dies of a broken pipe is its last.  When `InPreprocess()` is false the
destination write is its only write, so the error stream receives nothing
unless it is itself the current destination. -/
theorem LogFatal_writes_destination_then_stderr {α : Type} (R : fmt.Operand α) (σ : World)
    (d : os.File) (f : String) (a : List α) (hd : σ.logWriter = some d) :
    LogFatal R σ f a =
        (if σ.sigpipe d then .killed (σ.wrote d (fmt.Sprintf R f a))
        else if InPreprocess σ then
          (if (σ.wrote d (fmt.Sprintf R f a)).sigpipe os.Stderr then
            .killed ((σ.wrote d (fmt.Sprintf R f a)).wrote os.Stderr (fmt.Sprintf R f a))
          else .exited 1 ((σ.wrote d (fmt.Sprintf R f a)).wrote os.Stderr (fmt.Sprintf R f a)))
        else .exited 1 (σ.wrote d (fmt.Sprintf R f a)))
      ∧ ((∀ k file, σ.pipeDeath k file = false) →
          LogFatal R σ f a = .exited 1
            (if InPreprocess σ then
              (σ.wrote d (fmt.Sprintf R f a)).wrote os.Stderr (fmt.Sprintf R f a)
            else σ.wrote d (fmt.Sprintf R f a)))
      ∧ (InPreprocess σ = false → d.fd ≠ os.Stderr.fd →
          received os.Stderr.fd ((LogFatal R σ f a).world.writes.drop σ.writes.length) = "") := by
  have h := LogFatal_eq R σ d f a hd
  refine ⟨h, ?_, ?_⟩
  · intro hp
    have h1 : σ.sigpipe d = false := hp _ d
    have h2 : (σ.wrote d (fmt.Sprintf R f a)).sigpipe os.Stderr = false := hp _ os.Stderr
    rw [h, h1, h2]
    cases InPreprocess σ <;> simp
  · intro hp hne
    rw [h, hp]
    have key : (if σ.sigpipe d = true then
          (Outcome.killed (σ.wrote d (fmt.Sprintf R f a)) : Outcome Unit)
        else if false = true then
          (if (σ.wrote d (fmt.Sprintf R f a)).sigpipe os.Stderr = true then
            .killed ((σ.wrote d (fmt.Sprintf R f a)).wrote os.Stderr (fmt.Sprintf R f a))
          else .exited 1 ((σ.wrote d (fmt.Sprintf R f a)).wrote os.Stderr (fmt.Sprintf R f a)))
        else .exited 1 (σ.wrote d (fmt.Sprintf R f a))).world
        = σ.wrote d (fmt.Sprintf R f a) := by
      cases σ.sigpipe d <;> rfl
    rw [key]
    simp only [World.wrote, List.drop_left]
    exact received_of_fd_ne _ _ (by simpa using hne)

/-- Witness for C3: `LogFatal("boom")` outside the preprocess phase, the
destination being standard output. -/
theorem LogFatal_writes_destination_then_stderr_witness :
    LogFatal fmt.goOperand (initial ⟨"instrument"⟩ false (fun _ _ => none) false) "boom" []
      = .exited 1
        (if InPreprocess (initial ⟨"instrument"⟩ false (fun _ _ => none) false) then
          ((initial ⟨"instrument"⟩ false (fun _ _ => none) false).wrote os.Stdout
            (fmt.Sprintf fmt.goOperand "boom" [])).wrote os.Stderr
              (fmt.Sprintf fmt.goOperand "boom" [])
        else (initial ⟨"instrument"⟩ false (fun _ _ => none) false).wrote os.Stdout
          (fmt.Sprintf fmt.goOperand "boom" []))
    ∧ received os.Stderr.fd
        ((LogFatal fmt.goOperand (initial ⟨"instrument"⟩ false (fun _ _ => none) false) "boom"
          []).world.writes.drop
            (initial ⟨"instrument"⟩ false (fun _ _ => none) false).writes.length) = "" :=
  ⟨(LogFatal_writes_destination_then_stderr fmt.goOperand
      (initial ⟨"instrument"⟩ false (fun _ _ => none) false) os.Stdout "boom" [] rfl).2.1
      (fun _ _ => rfl),
    (LogFatal_writes_destination_then_stderr fmt.goOperand
      (initial ⟨"instrument"⟩ false (fun _ _ => none) false) os.Stdout "boom" [] rfl).2.2
      rfl (by decide)⟩

/-- Counterexample to C3 as stated: after `SetLogger(os.Stderr)`, with
`InPreprocess()` false, `LogFatal("boom")` puts `boom` on the error stream. -/
theorem LogFatal_reaches_stderr_outside_preprocess :
    InPreprocess (SetLogger (initial ⟨"instrument"⟩ false (fun _ _ => none) false)
        (some os.Stderr)).world = false
    ∧ received os.Stderr.fd
        (LogFatal fmt.goOperand
          (SetLogger (initial ⟨"instrument"⟩ false (fun _ _ => none) false)
            (some os.Stderr)).world
          "boom" []).world.writes = "boom"
    ∧ received os.Stderr.fd
        (LogFatal fmt.goOperand
          (SetLogger (initial ⟨"instrument"⟩ false (fun _ _ => none) false)
            (some os.Stderr)).world
          "boom" []).world.writes ≠ "" := by
  decide

/-- C4 (as amended).  With an open destination `d` and writes that succeed,
the writes of `LogFatal` are the write of `fmt.Sprintf(f, a...)` on `d`,
followed in the preprocess phase by the write of the same message on
`os.Stderr`, and no other.  The destination so receives exactly
`fmt.Sprintf(f, a...)`, with no phase prefix and no newline added, unless it
is the error stream and `InPreprocess()` holds: then it receives the message
twice.  The writes are the same for every run phase. -/
theorem LogFatal_destination_receives_Sprintf {α : Type} (R : fmt.Operand α) (σ : World)
    (d : os.File) (f : String) (a : List α) (hd : σ.logWriter = some d)
    (hok : ∀ k fd, σ.fault k fd = none) :
    (LogFatal R σ f a).world.writes
        = σ.writes ++ ⟨d.fd, fmt.Sprintf R f a, (fmt.Sprintf R f a).length⟩ ::
            (if InPreprocess σ then
              [⟨os.Stderr.fd, fmt.Sprintf R f a, (fmt.Sprintf R f a).length⟩]
            else [])
      ∧ received d.fd ((LogFatal R σ f a).world.writes.drop σ.writes.length)
        = (if InPreprocess σ = true ∧ d.fd = os.Stderr.fd then
            fmt.Sprintf R f a ++ fmt.Sprintf R f a
          else fmt.Sprintf R f a)
      ∧ ∀ P : RunPhase, (LogFatal R { σ with runPhase := P } f a).world.writes
          = (LogFatal R σ f a).world.writes := by
  have h := (LogFatal_no_fault R σ d f a hd hok).2
  refine ⟨h, ?_, fun P => ?_⟩
  · rw [h, List.drop_left]
    cases hp : InPreprocess σ
    · simp [received, take_length_string]
    · by_cases e : d.fd = os.Stderr.fd
      · simp [received, take_length_string, e]
      · have e2 : ¬ os.Stderr.fd = d.fd := fun x => e x.symm
        simp [received, take_length_string, e, e2]
  · rw [h]
    exact (LogFatal_no_fault R { σ with runPhase := P } d f a hd hok).2

/-- Witness for C4: `LogFatal("no such rule %t", false)` in the preprocess
phase, the destination being standard output. -/
theorem LogFatal_destination_receives_Sprintf_witness :
    (LogFatal fmt.goOperand (initial ⟨"preprocess"⟩ true (fun _ _ => none) false)
        "no such rule %t" [fmt.Arg.bool false]).world.writes
      = [⟨1, "no such rule false", 18⟩, ⟨2, "no such rule false", 18⟩]
    ∧ received os.Stdout.fd
        ((LogFatal fmt.goOperand (initial ⟨"preprocess"⟩ true (fun _ _ => none) false)
          "no such rule %t" [fmt.Arg.bool false]).world.writes.drop
            (initial ⟨"preprocess"⟩ true (fun _ _ => none) false).writes.length)
      = "no such rule false" :=
  ⟨(LogFatal_destination_receives_Sprintf fmt.goOperand
      (initial ⟨"preprocess"⟩ true (fun _ _ => none) false) os.Stdout
      "no such rule %t" [fmt.Arg.bool false] rfl (fun _ _ => rfl)).1.trans (by decide),
    (LogFatal_destination_receives_Sprintf fmt.goOperand
      (initial ⟨"preprocess"⟩ true (fun _ _ => none) false) os.Stdout
      "no such rule %t" [fmt.Arg.bool false] rfl (fun _ _ => rfl)).2.1.trans (by decide)⟩

/-- Counterexample to C4 as stated: the destination is the error stream and
`InPreprocess()` holds.  `LogFatal("boom")` writes `boom` to the destination
and then `boom` to `os.Stderr`, the same stream, which so receives
`boomboom`, not `fmt.Sprintf("boom")`. -/
theorem LogFatal_destination_receives_message_twice :
    (SetLogger (initial ⟨"preprocess"⟩ true (fun _ _ => none) false)
        (some os.Stderr)).world.logWriter = some os.Stderr
    ∧ fmt.Sprintf fmt.goOperand "boom" [] = "boom"
    ∧ received os.Stderr.fd
        (LogFatal fmt.goOperand
          (SetLogger (initial ⟨"preprocess"⟩ true (fun _ _ => none) false)
            (some os.Stderr)).world
          "boom" []).world.writes = "boomboom"
    ∧ received os.Stderr.fd
        (LogFatal fmt.goOperand
          (SetLogger (initial ⟨"preprocess"⟩ true (fun _ _ => none) false)
            (some os.Stderr)).world
          "boom" []).world.writes ≠ fmt.Sprintf fmt.goOperand "boom" [] := by
  decide

/-- C5.  From any logger state, right after `SetLogger(w)` returns,
`GetLoggerPath()` returns `w.Name()`; after a further `SetLogger(w2)` it
returns `w2.Name()`.  `GetLoggerPath` returns in the state it was called in:
destination, lock and streams are untouched. -/
theorem GetLoggerPath_after_SetLogger (σ : World) (w w2 : os.File) :
    ∃ σ1 σ2, SetLogger σ (some w) = .returned () σ1
      ∧ GetLoggerPath σ1 = .returned w.name σ1
      ∧ SetLogger σ1 (some w2) = .returned () σ2
      ∧ GetLoggerPath σ2 = .returned w2.name σ2 :=
  ⟨_, _, rfl, rfl, rfl, rfl⟩

/-- C7.  In the initial state the destination is standard output:
`GetLoggerPath()` returns `os.Stdout.Name()`, and a `Log` call makes one
write, of its line, on standard output, and returns (unless standard output
is a broken pipe and that write kills the process). -/
theorem initial_destination_is_stdout {α : Type} (R : fmt.Operand α) (P : RunPhase)
    (pre : Bool) (fault : Nat → Nat → Option Fault) (hdl : Bool) (f : String) (a : List α) :
    (initial P pre fault hdl).logWriter = some os.Stdout
      ∧ GetLoggerPath (initial P pre fault hdl)
        = .returned os.Stdout.name (initial P pre fault hdl)
      ∧ Log R (initial P pre fault hdl) f a =
          (if (initial P pre fault hdl).sigpipe os.Stdout then
            .killed
              { (initial P pre fault hdl).wrote os.Stdout
                  (fmt.Sprintf R ("[" ++ P.String ++ "] " ++ f ++ "\n") a) with
                logMutex := true }
          else
            .returned ()
              ((initial P pre fault hdl).wrote os.Stdout
                (fmt.Sprintf R ("[" ++ P.String ++ "] " ++ f ++ "\n") a)))
      ∧ ((∀ k file, (initial P pre fault hdl).pipeDeath k file = false) →
          Log R (initial P pre fault hdl) f a = .returned ()
            ((initial P pre fault hdl).wrote os.Stdout
              (fmt.Sprintf R ("[" ++ P.String ++ "] " ++ f ++ "\n") a)))
      ∧ (Log R (initial P pre fault hdl) f a).world.writes
        = [⟨os.Stdout.fd, fmt.Sprintf R ("[" ++ P.String ++ "] " ++ f ++ "\n") a,
            accepted (fault 0 os.Stdout.fd)
              (fmt.Sprintf R ("[" ++ P.String ++ "] " ++ f ++ "\n") a)⟩] := by
  have h := Log_unlocked R (initial P pre fault hdl) f a rfl
  have h' : Log R (initial P pre fault hdl) f a =
      (if (initial P pre fault hdl).sigpipe os.Stdout then
        .killed
          { (initial P pre fault hdl).wrote os.Stdout
              (fmt.Sprintf R ("[" ++ P.String ++ "] " ++ f ++ "\n") a) with
            logMutex := true }
      else
        .returned ()
          ((initial P pre fault hdl).wrote os.Stdout
            (fmt.Sprintf R ("[" ++ P.String ++ "] " ++ f ++ "\n") a))) := h
  refine ⟨rfl, rfl, h', ?_, ?_⟩
  · intro hp
    have h1 : (initial P pre fault hdl).sigpipe os.Stdout = false := hp _ os.Stdout
    rw [h', h1]
    rfl
  · rw [h']
    cases (initial P pre fault hdl).sigpipe os.Stdout <;> rfl

/-- Witness for C7: `Log("ready")` in phase `instrument`, from the initial
state with standard output in order. -/
theorem initial_destination_is_stdout_witness :
    Log fmt.goOperand (initial ⟨"instrument"⟩ false (fun _ _ => none) false) "ready" []
      = .returned ()
        ((initial ⟨"instrument"⟩ false (fun _ _ => none) false).wrote os.Stdout
          (fmt.Sprintf fmt.goOperand ("[" ++ "instrument" ++ "] " ++ "ready" ++ "\n") []))
    ∧ (Log fmt.goOperand (initial ⟨"instrument"⟩ false (fun _ _ => none) false) "ready"
        []).world.writes = [⟨1, "[instrument] ready\n", 19⟩] :=
  ⟨(initial_destination_is_stdout fmt.goOperand ⟨"instrument"⟩ false (fun _ _ => none) false
      "ready" []).2.2.2.1 (fun _ _ => rfl),
    (initial_destination_is_stdout fmt.goOperand ⟨"instrument"⟩ false (fun _ _ => none) false
      "ready" []).2.2.2.2.trans (by decide)⟩

/-- C9 (as amended).  A `Log` call that finds the mutex free makes the one
write on the destination (none on a nil destination) and no other, and leaves
the destination the same.  It then returns normally, with the mutex free
again, whether the write succeeded or failed with an error; the one other
ending is the death of the process by `SIGPIPE` inside that write, the mutex
still held, when the write hits a broken pipe on standard output or standard
error while the signal is neither ignored nor handled. -/
theorem Log_returns_with_lock_released_or_is_killed {α : Type} (R : fmt.Operand α) (σ : World)
    (f : String) (a : List α) (hl : σ.logMutex = false) :
    ∃ σ', (Log R σ f a = .returned () σ' ∧ σ'.logMutex = false
          ∨ Log R σ f a = .killed σ' ∧ σ'.logMutex = true
            ∧ ∃ d, σ.logWriter = some d ∧ σ.sigpipe d = true)
      ∧ σ'.logWriter = σ.logWriter
      ∧ σ'.writes = σ.writes ++
          (match σ.logWriter with
            | none => []
            | some d =>
              [⟨d.fd, fmt.Sprintf R ("[" ++ (GetRunPhase σ).String ++ "] " ++ f ++ "\n") a,
                accepted (σ.fault σ.writes.length d.fd)
                  (fmt.Sprintf R ("[" ++ (GetRunPhase σ).String ++ "] " ++ f ++ "\n") a)⟩])
      ∧ ((∀ k file, σ.pipeDeath k file = false) → Log R σ f a = .returned () σ') := by
  have h := Log_unlocked R σ f a hl
  cases hw : σ.logWriter with
  | none =>
    rw [hw] at h
    exact ⟨σ, Or.inl ⟨h, hl⟩, hw, by simp, fun _ => h⟩
  | some d =>
    rw [hw] at h
    simp only at h
    cases hs : σ.sigpipe d
    · rw [hs] at h
      exact ⟨_, Or.inl ⟨h, hl⟩, hw, rfl, fun _ => h⟩
    · rw [hs] at h
      refine ⟨_, Or.inr ⟨h, rfl, d, rfl, hs⟩, hw, rfl, fun hp => ?_⟩
      have := hp σ.writes.length d
      simp only [World.sigpipe] at hs
      rw [this] at hs
      cases hs

/-- Witness for C9: `Log("step %t", true)` on a destination whose write fails
with an error after three characters. -/
theorem Log_returns_with_lock_released_or_is_killed_witness :
    ∃ σ', Log fmt.goOperand (initial ⟨"instrument"⟩ false (fun _ _ => some ⟨3, false⟩) false)
          "step %t" [fmt.Arg.bool true] = .returned () σ'
      ∧ σ'.logWriter = some os.Stdout ∧ σ'.logMutex = false
      ∧ σ'.writes = [⟨1, "[instrument] step true\n", 3⟩] := by
  obtain ⟨σ', h1, h2, h3, h4⟩ := Log_returns_with_lock_released_or_is_killed fmt.goOperand
    (initial ⟨"instrument"⟩ false (fun _ _ => some ⟨3, false⟩) false) "step %t"
    [fmt.Arg.bool true] rfl
  have hr := h4 (fun _ _ => rfl)
  refine ⟨σ', hr, h2, ?_, h3.trans (by decide)⟩
  rcases h1 with ⟨_, hm⟩ | ⟨hk, _⟩
  · exact hm
  · rw [hr] at hk
    cases hk

/-- Counterexample to C9 as stated: standard output is a broken pipe and the
destination is the initial one.  The write of `Log("step")` fails, and `Log`
does not return: the process dies of `SIGPIPE` inside the write, the mutex
still held. -/
theorem Log_killed_by_broken_pipe :
    (initial ⟨"instrument"⟩ false (fun _ _ => some ⟨0, true⟩) false).logMutex = false
    ∧ (Log fmt.goOperand (initial ⟨"instrument"⟩ false (fun _ _ => some ⟨0, true⟩) false)
        "step" []).isKilled = true
    ∧ (Log fmt.goOperand (initial ⟨"instrument"⟩ false (fun _ _ => some ⟨0, true⟩) false)
        "step" []).isReturned = false
    ∧ (Log fmt.goOperand (initial ⟨"instrument"⟩ false (fun _ _ => some ⟨0, true⟩) false)
        "step" []).world.logMutex = true := by
  decide

/-- C10.  `LogFatal` does not touch `logMutex`.  Started with the mutex in
state `b` (held, for instance by a `Log` call in progress, or free) it does
not wait: it ends as it ends when the mutex is free, with the same writes and
in the same state but for the mutex, which is still in state `b`.  That end
is the exit with status 1, or the death of the process inside a write that
hits a broken pipe; with no such write it is the exit with status 1. -/
theorem LogFatal_skips_the_lock {α : Type} (R : fmt.Operand α) (σ : World) (f : String)
    (a : List α) (b : Bool) :
    LogFatal R { σ with logMutex := b } f a
        = (LogFatal R { σ with logMutex := false } f a).mapWorld
            (fun τ => { τ with logMutex := b })
      ∧ (LogFatal R { σ with logMutex := false } f a).world.logMutex = false
      ∧ (LogFatal R { σ with logMutex := b } f a).world.logMutex = b
      ∧ (LogFatal R { σ with logMutex := b } f a).world.writes
        = (LogFatal R { σ with logMutex := false } f a).world.writes
      ∧ ((∃ τ, LogFatal R { σ with logMutex := false } f a = .exited 1 τ)
          ∨ (∃ τ, LogFatal R { σ with logMutex := false } f a = .killed τ))
      ∧ ((∀ k file, σ.pipeDeath k file = false) →
          ∃ τ, LogFatal R { σ with logMutex := false } f a = .exited 1 τ
            ∧ τ.logMutex = false
            ∧ LogFatal R { σ with logMutex := b } f a = .exited 1 { τ with logMutex := b }) := by
  have key : ∀ τ : World, τ.logMutex = false →
      LogFatal R { τ with logMutex := b } f a
        = (LogFatal R τ f a).mapWorld (fun τ => { τ with logMutex := b })
      ∧ (LogFatal R τ f a).world.logMutex = false
      ∧ ((∃ τ', LogFatal R τ f a = .exited 1 τ') ∨ (∃ τ', LogFatal R τ f a = .killed τ')) := by
    intro τ hτ
    rcases τ with ⟨w, m, p, pre, fault, hdl, ws⟩
    simp only at hτ
    subst hτ
    cases w with
    | none =>
      have h1 := LogFatal_nil R ⟨none, false, p, pre, fault, hdl, ws⟩ f a rfl
      have h2 := LogFatal_nil R ⟨none, b, p, pre, fault, hdl, ws⟩ f a rfl
      have e2 : World.sigpipe ⟨none, b, p, pre, fault, hdl, ws⟩ os.Stderr
          = World.sigpipe ⟨none, false, p, pre, fault, hdl, ws⟩ os.Stderr := rfl
      show LogFatal R ⟨none, b, p, pre, fault, hdl, ws⟩ f a = _ ∧ _ ∧ _
      rw [h2, h1, e2]
      simp only [InPreprocess]
      generalize World.sigpipe ⟨none, false, p, pre, fault, hdl, ws⟩ os.Stderr = s1
      cases pre <;> cases s1 <;> simp [Outcome.mapWorld, Outcome.world, World.wrote]
    | some d =>
      have h1 := LogFatal_eq R ⟨some d, false, p, pre, fault, hdl, ws⟩ d f a rfl
      have h2 := LogFatal_eq R ⟨some d, b, p, pre, fault, hdl, ws⟩ d f a rfl
      have e2 : World.sigpipe ⟨some d, b, p, pre, fault, hdl, ws⟩ d
          = World.sigpipe ⟨some d, false, p, pre, fault, hdl, ws⟩ d := rfl
      have e3 : World.sigpipe
          (World.wrote ⟨some d, b, p, pre, fault, hdl, ws⟩ d (fmt.Sprintf R f a)) os.Stderr
          = World.sigpipe
            (World.wrote ⟨some d, false, p, pre, fault, hdl, ws⟩ d (fmt.Sprintf R f a))
              os.Stderr := rfl
      show LogFatal R ⟨some d, b, p, pre, fault, hdl, ws⟩ f a = _ ∧ _ ∧ _
      rw [h2, h1, e2, e3]
      simp only [InPreprocess]
      generalize World.sigpipe
        (World.wrote ⟨some d, false, p, pre, fault, hdl, ws⟩ d (fmt.Sprintf R f a))
          os.Stderr = s2
      generalize World.sigpipe ⟨some d, false, p, pre, fault, hdl, ws⟩ d = s1
      cases pre <;> cases s1 <;> cases s2 <;>
        simp [Outcome.mapWorld, Outcome.world, World.wrote]
  obtain ⟨k1, k2, k3⟩ := key { σ with logMutex := false } rfl
  have k1' : LogFatal R { σ with logMutex := b } f a
      = (LogFatal R { σ with logMutex := false } f a).mapWorld
          (fun τ => { τ with logMutex := b }) := k1
  refine ⟨k1', k2, ?_, ?_, k3, ?_⟩
  · rw [k1']
    cases LogFatal R { σ with logMutex := false } f a <;> rfl
  · rw [k1']
    cases LogFatal R { σ with logMutex := false } f a <;> rfl
  · intro hp
    have hx := (LogFatal_exits_or_killed R { σ with logMutex := false } f a).2.1 hp
    obtain ⟨τ, hτ⟩ := hx
    refine ⟨τ, hτ, ?_, ?_⟩
    · rw [hτ] at k2
      exact k2
    · rw [k1', hτ]
      rfl

/-- Witness for C10: `LogFatal("boom")` in the preprocess phase while the
mutex is held. -/
theorem LogFatal_skips_the_lock_witness :
    ∃ τ, LogFatal fmt.goOperand
          { initial ⟨"preprocess"⟩ true (fun _ _ => none) false with logMutex := false }
          "boom" [] = .exited 1 τ
      ∧ τ.logMutex = false
      ∧ LogFatal fmt.goOperand
          { initial ⟨"preprocess"⟩ true (fun _ _ => none) false with logMutex := true }
          "boom" [] = .exited 1 { τ with logMutex := true } :=
  (LogFatal_skips_the_lock fmt.goOperand (initial ⟨"preprocess"⟩ true (fun _ _ => none) false)
    "boom" [] true).2.2.2.2.2 (fun _ _ => rfl)

/-- C6 (as amended).  Let `new` be a stream and `old` any other stream, such
as the destination before the call.  `SetLogger(new)` returns without a write
and without touching the lock.  Every `Log` call that follows and is reached
makes its one write on `new`, with the line of that call, and `old` receives
nothing from it; all the calls are reached unless a write dies of a broken
pipe.  A `LogFatal` that follows makes its destination write on `new`; `old`
receives nothing from it either, except the echo of the message when `old` is
the error stream and `InPreprocess()` holds. -/
theorem SetLogger_redirects_destination_writes {α : Type} (R : fmt.Operand α) (σ : World)
    (old new : os.File) (calls : List (String × List α)) (f : String) (a : List α)
    (hne : old.fd ≠ new.fd) :
    ∃ σ1, SetLogger σ (some new) = .returned () σ1
      ∧ σ1.writes = σ.writes ∧ σ1.logMutex = σ.logMutex
      ∧ (σ.logMutex = false →
          ∃ added, (LogAll R σ1 calls).world.writes = σ.writes ++ added
            ∧ (∀ c ∈ added, c.fd = new.fd)
            ∧ added.map WriteCall.buf
                <+: calls.map (fun c => fmt.Sprintf R (template σ.runPhase c.1) c.2)
            ∧ received old.fd added = ""
            ∧ (∀ σ2, LogAll R σ1 calls = .returned () σ2 →
                σ2.writes = σ.writes ++ added
                ∧ added.map WriteCall.fd = calls.map (fun _ => new.fd)
                ∧ added.map WriteCall.buf
                  = calls.map (fun c => fmt.Sprintf R (template σ.runPhase c.1) c.2)
                ∧ LogFatal R σ2 f a =
                    (if σ2.sigpipe new then .killed (σ2.wrote new (fmt.Sprintf R f a))
                    else if InPreprocess σ then
                      (if (σ2.wrote new (fmt.Sprintf R f a)).sigpipe os.Stderr then
                        .killed
                          ((σ2.wrote new (fmt.Sprintf R f a)).wrote os.Stderr
                            (fmt.Sprintf R f a))
                      else
                        .exited 1
                          ((σ2.wrote new (fmt.Sprintf R f a)).wrote os.Stderr
                            (fmt.Sprintf R f a)))
                    else .exited 1 (σ2.wrote new (fmt.Sprintf R f a)))
                ∧ (¬ (InPreprocess σ = true ∧ old.fd = os.Stderr.fd) →
                    received old.fd
                      ((LogFatal R σ2 f a).world.writes.drop σ2.writes.length) = ""))
            ∧ ((∀ k file, σ.pipeDeath k file = false) →
                ∃ σ2, LogAll R σ1 calls = .returned () σ2
                  ∧ LogFatal R σ2 f a = .exited 1
                      (if InPreprocess σ then
                        (σ2.wrote new (fmt.Sprintf R f a)).wrote os.Stderr (fmt.Sprintf R f a)
                      else σ2.wrote new (fmt.Sprintf R f a)))) := by
  refine ⟨{ σ with logWriter := some new }, rfl, rfl, rfl, ?_⟩
  intro hl
  obtain ⟨added, h1, h2, h3, h4, h5⟩ :=
    LogAll_unlocked R { σ with logWriter := some new } new calls rfl hl
  have hfd : ∀ c ∈ added, c.fd ≠ old.fd := by
    intro c hc
    rw [h2 c hc]
    exact fun e => hne e.symm
  refine ⟨added, h1, h2, h3, received_of_fd_ne _ _ hfd, ?_, ?_⟩
  · intro σ2 hσ2
    obtain ⟨a1, _, a3, _, _, a6, a7⟩ := h4 σ2 hσ2
    have hw : σ2.writes = σ.writes ++ added := by
      rw [hσ2] at h1
      exact h1
    have hF := LogFatal_eq R σ2 new f a a1
    have hpre : InPreprocess σ2 = InPreprocess σ := a3
    rw [hpre] at hF
    refine ⟨hw, a6, a7, hF, ?_⟩
    intro hx
    obtain ⟨more, m1, m2⟩ := LogFatal_writes R σ2 new f a a1
    rw [m1, List.drop_left]
    apply received_of_fd_ne
    intro c hc
    rcases m2 c hc with e | ⟨e1, e2⟩
    · rw [e]
      exact fun e' => hne e'.symm
    · rw [e2]
      rw [hpre] at e1
      exact fun e' => hx ⟨e1, e'.symm⟩
  · intro hp
    obtain ⟨σ2, hσ2⟩ := h5 hp
    obtain ⟨a1, _, a3, a4, a5, _, _⟩ := h4 σ2 hσ2
    have hp2 : ∀ k file, σ2.pipeDeath k file = false := by
      intro k file
      have := hp k file
      simp only [World.pipeDeath, a4, a5] at this ⊢
      exact this
    have hF := LogFatal_no_pipeDeath R σ2 new f a a1 hp2
    have hpre : InPreprocess σ2 = InPreprocess σ := a3
    rw [hpre] at hF
    exact ⟨σ2, hσ2, hF⟩

/-- Witness for C6: the destination is standard output, `SetLogger` moves it
to a log file, two `Log` calls and a `LogFatal` follow in the preprocess
phase. -/
theorem SetLogger_redirects_destination_writes_witness :
    ∃ σ1, SetLogger (initial ⟨"preprocess"⟩ true (fun _ _ => none) false)
          (some ⟨3, "/tmp/otel.log"⟩) = .returned () σ1
      ∧ ∃ σ2 added, LogAll fmt.goOperand σ1 [("a", []), ("b=%t", [fmt.Arg.bool true])]
          = .returned () σ2
        ∧ added.map WriteCall.fd = [3, 3]
        ∧ added.map WriteCall.buf = ["[preprocess] a\n", "[preprocess] b=true\n"]
        ∧ received os.Stdout.fd added = ""
        ∧ received os.Stdout.fd
            ((LogFatal fmt.goOperand σ2 "boom" []).world.writes.drop σ2.writes.length) = "" := by
  obtain ⟨σ1, h1, _, _, h2⟩ := SetLogger_redirects_destination_writes fmt.goOperand
    (initial ⟨"preprocess"⟩ true (fun _ _ => none) false) os.Stdout ⟨3, "/tmp/otel.log"⟩
    [("a", []), ("b=%t", [fmt.Arg.bool true])] "boom" [] (by decide)
  obtain ⟨added, _, _, _, h6, h7, h8⟩ := h2 rfl
  obtain ⟨σ2, h9, _⟩ := h8 (fun _ _ => rfl)
  obtain ⟨_, b2, b3, _, b5⟩ := h7 σ2 h9
  exact ⟨σ1, h1, σ2, added, h9, b2, b3.trans (by decide), h6, b5 (by decide)⟩

/-- Counterexample to C6 as stated: the destination is the error stream,
`SetLogger` moves it to a log file, and a `LogFatal("boom")` in the preprocess
phase still puts `boom` on the old destination. -/
theorem LogFatal_echo_reaches_old_destination :
    (SetLogger (initial ⟨"preprocess"⟩ true (fun _ _ => none) false)
        (some os.Stderr)).world.logWriter = some os.Stderr
    ∧ os.Stderr.fd ≠ 3
    ∧ (LogFatal fmt.goOperand
        (SetLogger (SetLogger (initial ⟨"preprocess"⟩ true (fun _ _ => none) false)
          (some os.Stderr)).world (some ⟨3, "/tmp/otel.log"⟩)).world
        "boom" []).world.writes = [⟨3, "boom", 4⟩, ⟨2, "boom", 4⟩]
    ∧ received os.Stderr.fd
        (LogFatal fmt.goOperand
          (SetLogger (SetLogger (initial ⟨"preprocess"⟩ true (fun _ _ => none) false)
            (some os.Stderr)).world (some ⟨3, "/tmp/otel.log"⟩)).world
          "boom" []).world.writes ≠ "" := by
  decide

/-- C8 (as amended).  Goroutines `0 .. N-1` call `Log`, goroutine `i` with
`calls[i]`, on a shared state whose destination is open, whose mutex is free
and whose writes succeed; the scheduler has run the schedule `sch` from the
start, reaching `c`.
* The goroutines run `Log`: a `Log` call that finds the mutex held waits, as
  a goroutine at the lock does, and a goroutine scheduled alone goes through
  to the end and leaves what a lone `Log` call leaves.
* The steps taken and the steps still to take add up to a fixed number: no
  schedule goes on for ever.  As long as a goroutine has not returned, some
  goroutine can take a step, and some schedule brings all of them to the end.
* Once all have returned, the mutex is free, the goroutines took it in an
  order that lists each of them once, and the destination has received
  exactly their outputs, each whole and unbroken, in that order.
* The output of a call is `fmt.Sprintf` of its template; it is the line
  `"[" + P.String() + "] " + fmt.Sprintf(f, a...) + "\n"` under the conditions
  given for a lone call: the phase text holds no `%`, the format does not end
  in `[]`, its scan does not stop at `%!(NOVERB)` and no operand is left over. -/
theorem concurrent_Log_outputs_are_whole {α : Type} (R : fmt.Operand α) (σ0 : World)
    (d : os.File) (calls : List (String × List α)) (sch : List Nat) (c : Config)
    (hw : σ0.logWriter = some d) (hl : σ0.logMutex = false)
    (hs : ∀ k fd, σ0.fault k fd = none)
    (hrun : run R calls sch (Config.init σ0) = some c) :
    (∀ (τ : World) (f : String) (a : List α), τ.logMutex = true → Log R τ f a = .blocked τ)
      ∧ (∀ i t, c.pc i = .locking t → c.world.logMutex = true → step R calls i c = none)
      ∧ (∀ i call, calls[i]? = some call →
          ∃ c', run R calls (List.replicate ((lineOf R σ0.runPhase calls i).length + 4) i)
                (Config.init σ0) = some c'
            ∧ c'.pc i = .done
            ∧ Log R σ0 call.1 call.2 = .returned () (Log R σ0 call.1 call.2).world
            ∧ c'.world.logMutex = (Log R σ0 call.1 call.2).world.logMutex
            ∧ c'.world.logWriter = (Log R σ0 call.1 call.2).world.logWriter
            ∧ ∀ fd, (received fd c'.world.writes).data
                = (received fd (Log R σ0 call.1 call.2).world.writes).data)
      ∧ sch.length + totalWork R σ0.runPhase calls c
          = totalWork R σ0.runPhase calls (Config.init σ0)
      ∧ ((∃ i, i < calls.length ∧ c.pc i ≠ .done) →
          ∃ j, j < calls.length ∧ (step R calls j c).isSome = true)
      ∧ (∃ sch' c', run R calls (sch ++ sch') (Config.init σ0) = some c'
          ∧ ∀ i, i < calls.length → c'.pc i = .done)
      ∧ ((∀ i, i < calls.length → c.pc i = .done) →
          c.world.logMutex = false ∧ c.world.logWriter = some d
          ∧ c.order.Perm (List.range calls.length)
          ∧ (received d.fd c.world.writes).data
            = (received d.fd σ0.writes).data ++ linesOf R σ0.runPhase calls c.order)
      ∧ (∀ i call, calls[i]? = some call →
          lineOf R σ0.runPhase calls i
            = (fmt.Sprintf R ("[" ++ (GetRunPhase σ0).String ++ "] " ++ call.1 ++ "\n")
                call.2).data
          ∧ ((∀ ch ∈ (GetRunPhase σ0).String.data, ch ≠ '%') → ¬ ['[', ']'] <:+ call.1.data →
              (fmt.scan R call.1.data call.2).noVerb = false →
              ((fmt.scan R call.1.data call.2).reordered = true
                ∨ call.2.length ≤ (fmt.scan R call.1.data call.2).argNum) →
              lineOf R σ0.runPhase calls i
                = (specLine R (GetRunPhase σ0) call.1 call.2).data)) := by
  have inv := (Inv_init R σ0 d calls hw hl hs).run sch hrun
  refine ⟨fun τ f a h => Log_locked R τ f a h,
    fun i t hpc hm => step_locking_held R calls i c t hpc hm,
    fun i call hcall => solo_run R σ0 d calls i call hw hl hs hcall,
    totalWork_run sch (Inv_init R σ0 d calls hw hl hs) hrun, ?_, ?_, ?_, ?_⟩
  · rintro ⟨i, hi, hnd⟩
    exact inv.progress i hi hnd
  · obtain ⟨sch', c', h1, h2⟩ := inv.complete
    refine ⟨sch', c', ?_, h2⟩
    rw [run_append, hrun]
    exact h1
  · intro hdone
    obtain ⟨f1, f2, f3⟩ := inv.final hdone
    exact ⟨f1, inv.writer, f2, f3⟩
  · intro i call hcall
    have e := lineOf_eq R σ0.runPhase calls i call hcall
    refine ⟨e, fun hP hb hn hx => ?_⟩
    rw [e]
    exact congrArg String.data (Sprintf_template R (GetRunPhase σ0) call.1 call.2 hP hb hn hx)

/-- Witness for C8: two goroutines, `Log("a")` and `Log("b")` in phase `p`,
on standard output.  Both build their template, goroutine 1 takes the mutex
first and goroutine 0 follows once it is free. -/
theorem concurrent_Log_outputs_are_whole_witness :
    ∃ c, run fmt.goOperand [("a", []), ("b", [])]
          [0, 1, 1, 1, 1, 1, 1, 1, 1, 1, 1, 0, 0, 0, 0, 0, 0, 0, 0, 0]
          (Config.init (initial ⟨"p"⟩ false (fun _ _ => none) false)) = some c
      ∧ (∀ i, i < 2 → c.pc i = .done)
      ∧ c.order = [1, 0]
      ∧ c.order.Perm (List.range 2)
      ∧ (received os.Stdout.fd c.world.writes).data = "[p] b\n[p] a\n".data := by
  have hs : (run fmt.goOperand [("a", []), ("b", [])]
      [0, 1, 1, 1, 1, 1, 1, 1, 1, 1, 1, 0, 0, 0, 0, 0, 0, 0, 0, 0]
      (Config.init (initial ⟨"p"⟩ false (fun _ _ => none) false))).isSome = true := by
    decide
  have hc : run fmt.goOperand [("a", []), ("b", [])]
      [0, 1, 1, 1, 1, 1, 1, 1, 1, 1, 1, 0, 0, 0, 0, 0, 0, 0, 0, 0]
      (Config.init (initial ⟨"p"⟩ false (fun _ _ => none) false))
      = some ((run fmt.goOperand [("a", []), ("b", [])]
        [0, 1, 1, 1, 1, 1, 1, 1, 1, 1, 1, 0, 0, 0, 0, 0, 0, 0, 0, 0]
        (Config.init (initial ⟨"p"⟩ false (fun _ _ => none) false))).getD
          (Config.init (initial ⟨"p"⟩ false (fun _ _ => none) false))) := by
    cases h : run fmt.goOperand [("a", []), ("b", [])]
      [0, 1, 1, 1, 1, 1, 1, 1, 1, 1, 1, 0, 0, 0, 0, 0, 0, 0, 0, 0]
      (Config.init (initial ⟨"p"⟩ false (fun _ _ => none) false)) with
    | none => rw [h] at hs; cases hs
    | some c => rfl
  have hdone : ∀ i, i < 2 → ((run fmt.goOperand [("a", []), ("b", [])]
      [0, 1, 1, 1, 1, 1, 1, 1, 1, 1, 1, 0, 0, 0, 0, 0, 0, 0, 0, 0]
      (Config.init (initial ⟨"p"⟩ false (fun _ _ => none) false))).getD
        (Config.init (initial ⟨"p"⟩ false (fun _ _ => none) false))).pc i = .done := by
    decide
  have hord : ((run fmt.goOperand [("a", []), ("b", [])]
      [0, 1, 1, 1, 1, 1, 1, 1, 1, 1, 1, 0, 0, 0, 0, 0, 0, 0, 0, 0]
      (Config.init (initial ⟨"p"⟩ false (fun _ _ => none) false))).getD
        (Config.init (initial ⟨"p"⟩ false (fun _ _ => none) false))).order = [1, 0] := by
    decide
  have h := (concurrent_Log_outputs_are_whole fmt.goOperand
    (initial ⟨"p"⟩ false (fun _ _ => none) false) os.Stdout [("a", []), ("b", [])]
    [0, 1, 1, 1, 1, 1, 1, 1, 1, 1, 1, 0, 0, 0, 0, 0, 0, 0, 0, 0] _ rfl rfl (fun _ _ => rfl)
    hc).2.2.2.2.2.2.1 hdone
  refine ⟨_, hc, hdone, hord, h.2.2.1, h.2.2.2.trans ?_⟩
  rw [hord]
  decide

/-- Counterexample to C8 as stated: two goroutines call `Log("%99999999t")`
in phase `p` on standard output, one after the other.  The width overflows
the limit of `fmt`, the scan of the template stops at `%!(NOVERB)` and the
newline is never rendered: both calls have returned and the destination has
received `[p] %!(NOVERB)[p] %!(NOVERB)`, which holds no newline and so not
two complete lines. -/
theorem concurrent_Log_outputs_without_newline :
    (run fmt.goOperand [("%99999999t", []), ("%99999999t", [])]
        (List.replicate 18 0 ++ List.replicate 18 1)
        (Config.init (initial ⟨"p"⟩ false (fun _ _ => none) false))).isSome = true
    ∧ (∀ i, i < 2 → ((run fmt.goOperand [("%99999999t", []), ("%99999999t", [])]
        (List.replicate 18 0 ++ List.replicate 18 1)
        (Config.init (initial ⟨"p"⟩ false (fun _ _ => none) false))).getD
          (Config.init (initial ⟨"p"⟩ false (fun _ _ => none) false))).pc i = .done)
    ∧ received os.Stdout.fd
        ((run fmt.goOperand [("%99999999t", []), ("%99999999t", [])]
          (List.replicate 18 0 ++ List.replicate 18 1)
          (Config.init (initial ⟨"p"⟩ false (fun _ _ => none) false))).getD
            (Config.init (initial ⟨"p"⟩ false (fun _ _ => none) false))).world.writes
      = "[p] %!(NOVERB)[p] %!(NOVERB)"
    ∧ '\n' ∉ (received os.Stdout.fd
        ((run fmt.goOperand [("%99999999t", []), ("%99999999t", [])]
          (List.replicate 18 0 ++ List.replicate 18 1)
          (Config.init (initial ⟨"p"⟩ false (fun _ _ => none) false))).getD
            (Config.init (initial ⟨"p"⟩ false (fun _ _ => none) false))).world.writes).data
    ∧ (Log fmt.goOperand (initial ⟨"p"⟩ false (fun _ _ => none) false)
        "%99999999t" []).world.writes = [⟨1, "[p] %!(NOVERB)", 14⟩] := by
  decide

end util
